import Mathlib

/-!
Verification development for the Janggi (Korean chess) engine in `JanggiGame.py`.

The Python program is embedded shallowly:

* positions are integer pairs `(row, column)` (Python tuples of ints);
* the board is a function from positions to an optional occupant: each
  `get_legal_moves` method only ever reads whether a cell is empty and (for the
  Cannon) the occupant's piece type, so a cell is modelled as `Option PType`;
* Python sets of positions passed as `opposition` are modelled as `Finset IPos`
  (only membership is ever queried);
* each `get_legal_moves` method is a bounded recursion on a `count` parameter
  (and, for Chariot/Cannon, a ray walk that leaves the 10×9 board after at most
  ten steps; those walks carry a fuel argument large enough that fuel never
  runs out on any call the program makes);
* the result set is modelled as a `List IPos`; Python returns a `set`, whose
  only uses in the program are membership tests and unions, so a list with the
  same members is an equivalent model (duplicates and order are never
  observable through those operations, and `is_check_mate` iterates a set whose
  order Python leaves unspecified).
-/

set_option maxHeartbeats 4000000
set_option maxRecDepth 10000

abbrev IPos := Int × Int

inductive Owner
  | red
  | blue
  deriving DecidableEq, Repr

inductive PType
  | General
  | Guard
  | Horse
  | Elephant
  | Chariot
  | Cannon
  | Soldier
  deriving DecidableEq, Repr

inductive GState
  | UNFINISHED
  | RED_WON
  | BLUE_WON
  deriving DecidableEq, Repr

/-- `current_spot in {(row, column) for row in range(10) for column in range(9)}`. -/
abbrev onBoard (p : IPos) : Prop := 0 ≤ p.1 ∧ p.1 ≤ 9 ∧ 0 ≤ p.2 ∧ p.2 ≤ 8

/-- The red fortress `{(row, column) for row in range(3) for column in range(3, 6)}`. -/
abbrev redFortress (p : IPos) : Prop := 0 ≤ p.1 ∧ p.1 ≤ 2 ∧ 3 ≤ p.2 ∧ p.2 ≤ 5

/-- The blue fortress `{(row, column) for row in range(7, 10) for column in range(3, 6)}`. -/
abbrev blueFortress (p : IPos) : Prop := 7 ≤ p.1 ∧ p.1 ≤ 9 ∧ 3 ≤ p.2 ∧ p.2 ≤ 5

/-- A board as observed by `get_legal_moves`: every access to a cell is either
an emptiness test `board[row][column] != ""` or (Cannon only) the occupant's
`get_type()`. -/
abbrev MGBoard := IPos → Option PType

/-- Cells of the blue fortress having diagonal lines:
`{(7, 3), (7, 5), (9, 3), (9, 5), (8, 4)}`. -/
def blueDiagCells : List IPos := [(7, 3), (7, 5), (9, 3), (9, 5), (8, 4)]

/-- Cells of the red fortress having diagonal lines:
`{(0, 3), (0, 5), (2, 3), (2, 5), (1, 4)}`. -/
def redDiagCells : List IPos := [(0, 3), (0, 5), (2, 3), (2, 5), (1, 4)]

/-! ### General and Guard

`BlueGeneral.get_legal_moves` recurses with `count + 1`; the entry call has
`count = 0` and every recursive call has `count = 1`, which is a base case, so
the recursion is split into a step function (the `count = 1` case) and the
entry function (the `count = 0` case).  `BlueGuard.get_legal_moves` is
textually identical to `BlueGeneral.get_legal_moves`, and likewise for red. -/

/-- `count = 1` case of `BlueGeneral.get_legal_moves`. -/
def blueGeneralStep (b : MGBoard) (opp : Finset IPos) (cur : IPos) : List IPos :=
  if ¬ blueFortress cur then []
  else if (b cur).isSome ∧ cur ∉ opp then []
  else [cur]

/-- `BlueGeneral.get_legal_moves(board, opposition)` (entry call, `count = 0`). -/
def blueGeneralMoves (b : MGBoard) (opp : Finset IPos) (loc0 : IPos) : List IPos :=
  if ¬ blueFortress loc0 then []
  else
    (if loc0 ∈ blueDiagCells then
      blueGeneralStep b opp (loc0.1 + 1, loc0.2 + 1) ++
      blueGeneralStep b opp (loc0.1 + 1, loc0.2 - 1) ++
      blueGeneralStep b opp (loc0.1 - 1, loc0.2 + 1) ++
      blueGeneralStep b opp (loc0.1 - 1, loc0.2 - 1)
    else []) ++
    (blueGeneralStep b opp (loc0.1 + 1, loc0.2) ++
     blueGeneralStep b opp (loc0.1 - 1, loc0.2) ++
     blueGeneralStep b opp (loc0.1, loc0.2 + 1) ++
     blueGeneralStep b opp (loc0.1, loc0.2 - 1))

/-- `count = 1` case of `RedGeneral.get_legal_moves`. -/
def redGeneralStep (b : MGBoard) (opp : Finset IPos) (cur : IPos) : List IPos :=
  if ¬ redFortress cur then []
  else if (b cur).isSome ∧ cur ∉ opp then []
  else [cur]

/-- `RedGeneral.get_legal_moves(board, opposition)` (entry call, `count = 0`). -/
def redGeneralMoves (b : MGBoard) (opp : Finset IPos) (loc0 : IPos) : List IPos :=
  if ¬ redFortress loc0 then []
  else
    (if loc0 ∈ redDiagCells then
      redGeneralStep b opp (loc0.1 + 1, loc0.2 + 1) ++
      redGeneralStep b opp (loc0.1 + 1, loc0.2 - 1) ++
      redGeneralStep b opp (loc0.1 - 1, loc0.2 + 1) ++
      redGeneralStep b opp (loc0.1 - 1, loc0.2 - 1)
    else []) ++
    (redGeneralStep b opp (loc0.1 + 1, loc0.2) ++
     redGeneralStep b opp (loc0.1 - 1, loc0.2) ++
     redGeneralStep b opp (loc0.1, loc0.2 + 1) ++
     redGeneralStep b opp (loc0.1, loc0.2 - 1))

/-- `BlueGuard.get_legal_moves` is verbatim `BlueGeneral.get_legal_moves`. -/
def blueGuardMoves : MGBoard → Finset IPos → IPos → List IPos := blueGeneralMoves

/-- `RedGuard.get_legal_moves` is verbatim `RedGeneral.get_legal_moves`. -/
def redGuardMoves : MGBoard → Finset IPos → IPos → List IPos := redGeneralMoves

/-! ### Horse

`Horse.get_legal_moves` has `count ∈ {0, 1, 2}`: the entry call, the orthogonal
step, and the final diagonal step. -/

/-- `count = 2` case of `Horse.get_legal_moves`. -/
def horseFinal (b : MGBoard) (opp : Finset IPos) (cur : IPos) : List IPos :=
  if ¬ onBoard cur then []
  else if (b cur).isSome ∧ cur ∉ opp then []
  else [cur]

/-- `count = 1` case of `Horse.get_legal_moves`: the intermediate cell is
blocked by any piece; the continuation direction is chosen by comparing the
intermediate cell with the piece's own location `loc0`. -/
def horseMid (b : MGBoard) (opp : Finset IPos) (loc0 cur : IPos) : List IPos :=
  if ¬ onBoard cur then []
  else if (b cur).isSome then []
  else if loc0.1 < cur.1 then
    horseFinal b opp (cur.1 + 1, cur.2 + 1) ++ horseFinal b opp (cur.1 + 1, cur.2 - 1)
  else if cur.1 < loc0.1 then
    horseFinal b opp (cur.1 - 1, cur.2 + 1) ++ horseFinal b opp (cur.1 - 1, cur.2 - 1)
  else if loc0.2 < cur.2 then
    horseFinal b opp (cur.1 + 1, cur.2 + 1) ++ horseFinal b opp (cur.1 - 1, cur.2 + 1)
  else
    horseFinal b opp (cur.1 + 1, cur.2 - 1) ++ horseFinal b opp (cur.1 - 1, cur.2 - 1)

/-- `Horse.get_legal_moves(board, opposition)` (entry call, `count = 0`). -/
def horseMoves (b : MGBoard) (opp : Finset IPos) (loc0 : IPos) : List IPos :=
  if ¬ onBoard loc0 then []
  else
    horseMid b opp loc0 (loc0.1 + 1, loc0.2) ++
    horseMid b opp loc0 (loc0.1 - 1, loc0.2) ++
    horseMid b opp loc0 (loc0.1, loc0.2 + 1) ++
    horseMid b opp loc0 (loc0.1, loc0.2 - 1)

/-! ### Elephant

`Elephant.get_legal_moves` has `count ∈ {0, 1, 2, 3}` and a direction string
among `"++"`, `"+-"`, `"-+"`, `"--"` (with `None` falling into the `else`
branch of the `count == 2` dispatch, exactly as Python's trailing `else`). -/

inductive Dir4
  | pp
  | pm
  | mp
  | mm
  deriving DecidableEq, Repr

/-- `count = 3` case of `Elephant.get_legal_moves`. -/
def elephantFinal (b : MGBoard) (opp : Finset IPos) (cur : IPos) : List IPos :=
  if ¬ onBoard cur then []
  else if (b cur).isSome ∧ cur ∉ opp then []
  else [cur]

/-- `count = 2` case of `Elephant.get_legal_moves`: the second diagonal step
continues in the recorded direction (`else` covers `"--"` and `None`). -/
def elephantMid2 (b : MGBoard) (opp : Finset IPos) (d : Option Dir4) (cur : IPos) : List IPos :=
  if ¬ onBoard cur then []
  else if (b cur).isSome then []
  else match d with
    | some Dir4.pp => elephantFinal b opp (cur.1 + 1, cur.2 + 1)
    | some Dir4.pm => elephantFinal b opp (cur.1 + 1, cur.2 - 1)
    | some Dir4.mp => elephantFinal b opp (cur.1 - 1, cur.2 + 1)
    | _ => elephantFinal b opp (cur.1 - 1, cur.2 - 1)

/-- `count = 1` case of `Elephant.get_legal_moves`. -/
def elephantMid1 (b : MGBoard) (opp : Finset IPos) (loc0 cur : IPos) : List IPos :=
  if ¬ onBoard cur then []
  else if (b cur).isSome then []
  else if loc0.1 < cur.1 then
    elephantMid2 b opp (some Dir4.pp) (cur.1 + 1, cur.2 + 1) ++
    elephantMid2 b opp (some Dir4.pm) (cur.1 + 1, cur.2 - 1)
  else if cur.1 < loc0.1 then
    elephantMid2 b opp (some Dir4.mp) (cur.1 - 1, cur.2 + 1) ++
    elephantMid2 b opp (some Dir4.mm) (cur.1 - 1, cur.2 - 1)
  else if loc0.2 < cur.2 then
    elephantMid2 b opp (some Dir4.pp) (cur.1 + 1, cur.2 + 1) ++
    elephantMid2 b opp (some Dir4.mp) (cur.1 - 1, cur.2 + 1)
  else
    elephantMid2 b opp (some Dir4.pm) (cur.1 + 1, cur.2 - 1) ++
    elephantMid2 b opp (some Dir4.mm) (cur.1 - 1, cur.2 - 1)

/-- `Elephant.get_legal_moves(board, opposition)` (entry call, `count = 0`). -/
def elephantMoves (b : MGBoard) (opp : Finset IPos) (loc0 : IPos) : List IPos :=
  if ¬ onBoard loc0 then []
  else
    elephantMid1 b opp loc0 (loc0.1 + 1, loc0.2) ++
    elephantMid1 b opp loc0 (loc0.1 - 1, loc0.2) ++
    elephantMid1 b opp loc0 (loc0.1, loc0.2 + 1) ++
    elephantMid1 b opp loc0 (loc0.1, loc0.2 - 1)

/-! ### Chariot

`Chariot.get_legal_moves` walks rays; each recursive call along a ray strictly
advances in a fixed direction, so it leaves the board after at most ten steps.
The walk carries a fuel argument; entry fuel 64 is more than any walk the
program can perform, so fuel exhaustion (returning `[]`) is never reached from
the entry call. -/

inductive DirC
  | dPE
  | dME
  | dEP
  | dEM
  | dpp
  | dpm
  | dmp
  | dmm
  deriving DecidableEq, Repr

/-- Step a position by a chariot direction (`"+="` is down, `"-="` up, `"=+"`
right, `"=-"` left, and the four diagonals). -/
def advC : DirC → IPos → IPos
  | DirC.dPE, p => (p.1 + 1, p.2)
  | DirC.dME, p => (p.1 - 1, p.2)
  | DirC.dEP, p => (p.1, p.2 + 1)
  | DirC.dEM, p => (p.1, p.2 - 1)
  | DirC.dpp, p => (p.1 + 1, p.2 + 1)
  | DirC.dpm, p => (p.1 + 1, p.2 - 1)
  | DirC.dmp, p => (p.1 - 1, p.2 + 1)
  | DirC.dmm, p => (p.1 - 1, p.2 - 1)

/-- Totalised advance for the guarded empty-continue case (the `none` branch is
dead code: the condition requires `d ≠ none`). -/
def advC' : Option DirC → IPos → IPos
  | some d, p => advC d p
  | none, p => p

abbrev DirC.isDiag (d : DirC) : Prop :=
  d = DirC.dpp ∨ d = DirC.dpm ∨ d = DirC.dmp ∨ d = DirC.dmm

/-- The ten palace cells from which `Chariot.get_legal_moves` launches diagonal
rays. -/
def chariotDiagCells : List IPos :=
  [(0, 3), (0, 5), (1, 4), (2, 3), (2, 5), (7, 3), (7, 5), (9, 3), (9, 5), (8, 4)]

/-- `Chariot.get_legal_moves`, with the piece's own location `loc0` in place of
`self.get_location()`.  In Python the empty-continue block dispatches on the
eight direction strings and a `None` direction falls through to the bottom
dispatch; here that is the `d ≠ none` conjunct. -/
def chariotGo (b : MGBoard) (opp : Finset IPos) (loc0 : IPos) :
    Nat → IPos → Option DirC → List IPos
  | 0, _, _ => []
  | Nat.succ fuel, cur, d =>
    if ¬ onBoard cur then []
    else if (∃ dd, d = some dd ∧ dd.isDiag) ∧ ¬ redFortress cur ∧ ¬ blueFortress cur then []
    else if loc0 ≠ cur ∧ (b cur).isSome ∧ cur ∉ opp then []
    else if loc0 ≠ cur ∧ cur ∈ opp then [cur]
    else if loc0 ≠ cur ∧ (b cur) = none ∧ d ≠ none then
      cur :: chariotGo b opp loc0 fuel (advC' d cur) d
    else
      (if cur ∈ chariotDiagCells then
        chariotGo b opp loc0 fuel (cur.1 + 1, cur.2 + 1) (some DirC.dpp) ++
        chariotGo b opp loc0 fuel (cur.1 + 1, cur.2 - 1) (some DirC.dpm) ++
        chariotGo b opp loc0 fuel (cur.1 - 1, cur.2 + 1) (some DirC.dmp) ++
        chariotGo b opp loc0 fuel (cur.1 - 1, cur.2 - 1) (some DirC.dmm)
      else []) ++
      (chariotGo b opp loc0 fuel (cur.1 + 1, cur.2) (some DirC.dPE) ++
       chariotGo b opp loc0 fuel (cur.1 - 1, cur.2) (some DirC.dME) ++
       chariotGo b opp loc0 fuel (cur.1, cur.2 + 1) (some DirC.dEP) ++
       chariotGo b opp loc0 fuel (cur.1, cur.2 - 1) (some DirC.dEM))

/-- `Chariot.get_legal_moves(board, opposition)` (entry call). -/
def chariotMoves (b : MGBoard) (opp : Finset IPos) (loc0 : IPos) : List IPos :=
  chariotGo b opp loc0 64 loc0 none

/-! ### Cannon -/

inductive DirO
  | oPE
  | oME
  | oEP
  | oEM
  deriving DecidableEq, Repr

/-- The cannon's direction dispatch: Python's trailing `else` covers both
`"=-"` and `None`, both of which move left. -/
def advO : Option DirO → IPos → IPos × DirO
  | some DirO.oPE, p => ((p.1 + 1, p.2), DirO.oPE)
  | some DirO.oME, p => ((p.1 - 1, p.2), DirO.oME)
  | some DirO.oEP, p => ((p.1, p.2 + 1), DirO.oEP)
  | _, p => ((p.1, p.2 - 1), DirO.oEM)

/-- `red_corners = {(0,3): (2,5), (0,5): (2,3), (2,3): (0,5), (2,5): (0,3)}`. -/
def redCornerOpp (p : IPos) : Option IPos :=
  if p = (0, 3) then some (2, 5)
  else if p = (0, 5) then some (2, 3)
  else if p = (2, 3) then some (0, 5)
  else if p = (2, 5) then some (0, 3)
  else none

/-- `blue_corners = {(7,3): (9,5), (7,5): (9,3), (9,3): (7,5), (9,5): (7,3)}`. -/
def blueCornerOpp (p : IPos) : Option IPos :=
  if p = (7, 3) then some (9, 5)
  else if p = (7, 5) then some (9, 3)
  else if p = (9, 3) then some (7, 5)
  else if p = (9, 5) then some (7, 3)
  else none

/-- The `positions` list built at the cannon's entry call: all cells occupied
by a non-Cannon piece.  Only membership is queried, always at on-board cells,
so the predicate derived from the board is an equivalent model of the Python
list. -/
def nonCannonAt (b : MGBoard) (p : IPos) : Prop :=
  ∃ t, b p = some t ∧ t ≠ PType.Cannon

instance (b : MGBoard) (p : IPos) : Decidable (nonCannonAt b p) := by
  unfold nonCannonAt
  exact match b p with
  | some t => if h : t ≠ PType.Cannon then .isTrue ⟨t, rfl, h⟩ else
      .isFalse (by rintro ⟨u, hu, hne⟩; cases hu; exact h hne)
  | none => .isFalse (by rintro ⟨u, hu, _⟩; cases hu)

/-- The cannon's diagonal additions: note the source checks `(0, 4)` (not the
red-fortress centre `(1, 4)`) on the red side, and `(8, 4)` (the blue-fortress
centre) on the blue side; this mirrors lines 575-584 of the source exactly. -/
def cannonDiagonals (b : MGBoard) (loc0 : IPos) : List IPos :=
  (match redCornerOpp loc0 with
   | some q => if nonCannonAt b (0, 4) then [q] else []
   | none => []) ++
  (match blueCornerOpp loc0 with
   | some q => if nonCannonAt b (8, 4) then [q] else []
   | none => [])

/-- `Cannon.get_legal_moves`, with `count` the number of jumped non-Cannon
pieces so far. -/
def cannonGo (b : MGBoard) (opp : Finset IPos) (loc0 : IPos) :
    Nat → Nat → IPos → Option DirO → List IPos
  | 0, _, _, _ => []
  | Nat.succ fuel, count, cur, d =>
    if ¬ onBoard cur then []
    else if loc0 ≠ cur ∧ (b cur).isSome ∧ ¬ nonCannonAt b cur then []
    else if 1 < count then []
    else if count = 1 ∧ cur ∈ opp then [cur]
    else if count = 1 ∧ (b cur) = none then
      cur :: cannonGo b opp loc0 fuel count (advO d cur).1 (some (advO d cur).2)
    else if (b cur) = none then
      cannonGo b opp loc0 fuel count (advO d cur).1 (some (advO d cur).2)
    else if nonCannonAt b cur then
      cannonGo b opp loc0 fuel (count + 1) (advO d cur).1 (some (advO d cur).2)
    else
      cannonDiagonals b loc0 ++
      (cannonGo b opp loc0 fuel count (cur.1 + 1, cur.2) (some DirO.oPE) ++
       cannonGo b opp loc0 fuel count (cur.1 - 1, cur.2) (some DirO.oME) ++
       cannonGo b opp loc0 fuel count (cur.1, cur.2 + 1) (some DirO.oEP) ++
       cannonGo b opp loc0 fuel count (cur.1, cur.2 - 1) (some DirO.oEM))

/-- `Cannon.get_legal_moves(board, opposition)` (entry call). -/
def cannonMoves (b : MGBoard) (opp : Finset IPos) (loc0 : IPos) : List IPos :=
  cannonGo b opp loc0 64 0 loc0 none

/-! ### Soldiers -/

/-- `count = 1` case of `RedSoldier.get_legal_moves` (and of
`BlueSoldier.get_legal_moves`, which is identical at `count = 1`). -/
def soldierStep (b : MGBoard) (opp : Finset IPos) (cur : IPos) : List IPos :=
  if ¬ onBoard cur then []
  else if (b cur).isSome ∧ cur ∉ opp then []
  else [cur]

/-- `RedSoldier.get_legal_moves(board, opposition)` (entry call).  The forward
step is `(row + 1, column)`, toward the blue edge; the fortress-diagonal
additions for the blue palace are unconditional given the location. -/
def redSoldierMoves (b : MGBoard) (opp : Finset IPos) (loc0 : IPos) : List IPos :=
  if ¬ onBoard loc0 then []
  else
    (if loc0 = (7, 3) then [(8, 4)]
     else if loc0 = (7, 5) then [(8, 4)]
     else if loc0 = (8, 4) then [(9, 3), (9, 5)]
     else []) ++
    (soldierStep b opp (loc0.1 + 1, loc0.2) ++
     soldierStep b opp (loc0.1, loc0.2 + 1) ++
     soldierStep b opp (loc0.1, loc0.2 - 1))

/-- `BlueSoldier.get_legal_moves(board, opposition)` (entry call).  The forward
step is `(row - 1, column)`, toward the red edge. -/
def blueSoldierMoves (b : MGBoard) (opp : Finset IPos) (loc0 : IPos) : List IPos :=
  if ¬ onBoard loc0 then []
  else
    (if loc0 = (2, 3) then [(1, 4)]
     else if loc0 = (2, 5) then [(1, 4)]
     else if loc0 = (1, 4) then [(0, 3), (0, 5)]
     else []) ++
    (soldierStep b opp (loc0.1 - 1, loc0.2) ++
     soldierStep b opp (loc0.1, loc0.2 + 1) ++
     soldierStep b opp (loc0.1, loc0.2 - 1))

/-- Dispatch of `get_legal_moves` by owner and piece kind, as realised by the
class of each piece object. -/
def pieceMoves (o : Owner) (t : PType) (b : MGBoard) (opp : Finset IPos) (loc0 : IPos) :
    List IPos :=
  match t, o with
  | PType.General, Owner.blue => blueGeneralMoves b opp loc0
  | PType.General, Owner.red => redGeneralMoves b opp loc0
  | PType.Guard, Owner.blue => blueGuardMoves b opp loc0
  | PType.Guard, Owner.red => redGuardMoves b opp loc0
  | PType.Horse, _ => horseMoves b opp loc0
  | PType.Elephant, _ => elephantMoves b opp loc0
  | PType.Chariot, _ => chariotMoves b opp loc0
  | PType.Cannon, _ => cannonMoves b opp loc0
  | PType.Soldier, Owner.red => redSoldierMoves b opp loc0
  | PType.Soldier, Owner.blue => blueSoldierMoves b opp loc0

/-- Piece type by creation index within one side (creation order of
`create_pieces`: General; Guard, Horse, Elephant, Chariot, Cannon; the same
five again; then five Soldiers). -/
def rosterType (i : Nat) : PType :=
  if i = 0 then PType.General
  else if i = 1 ∨ i = 6 then PType.Guard
  else if i = 2 ∨ i = 7 then PType.Horse
  else if i = 3 ∨ i = 8 then PType.Elephant
  else if i = 4 ∨ i = 9 then PType.Chariot
  else if i = 5 ∨ i = 10 then PType.Cannon
  else PType.Soldier

/-- Owner fixed at creation: identifiers below 16 are blue pieces. -/
def pieceOwner (pid : Nat) : Owner := if pid < 16 then Owner.blue else Owner.red

/-- Type fixed at creation. -/
def pieceType (pid : Nat) : PType := rosterType (pid % 16)

def oppositeOwner : Owner → Owner
  | Owner.blue => Owner.red
  | Owner.red => Owner.blue

structure GameSt where
  board : IPos → Option Nat
  loc : Nat → Option IPos
  bluePieces : List Nat
  redPieces : List Nat
  turn : Owner
  state : GState

/-- Board-cell assignment `board[p] = v`. -/
def updB (b : IPos → Option Nat) (p : IPos) (v : Option Nat) : IPos → Option Nat :=
  fun q => if q = p then v else b q

/-- Location assignment `piece.set_location(v)`. -/
def updL (l : Nat → Option IPos) (pid : Nat) (v : Option IPos) : Nat → Option IPos :=
  fun q => if q = pid then v else l q

/-- A player's own piece collection. -/
def sideList (s : GameSt) : Owner → List Nat
  | Owner.blue => s.bluePieces
  | Owner.red => s.redPieces

/-- `get_opposition_positions(player)`: the set of locations of the opposing
side's collection.  (A Python `None` location would enter the set but can
never equal a `(row, column)` tuple in a membership test, so dropping it via
`filterMap` is equivalent.) -/
def oppositionPositions (s : GameSt) (player : Owner) : Finset IPos :=
  ((sideList s (oppositeOwner player)).filterMap s.loc).toFinset

/-- The board as passed to `get_legal_moves`: only emptiness and the
occupant's type are observable. -/
def mgBoard (s : GameSt) : MGBoard := fun p => (s.board p).map pieceType

/-- `piece.get_legal_moves(board, get_opposition_positions(player))` for the
piece object `pid`; `player` is the argument the caller passes (always the
piece's owner in the program).  A piece sitting in a collection always has a
location; the `none` branch is unreachable from the program's calls. -/
def movesOfPiece (s : GameSt) (player : Owner) (pid : Nat) : List IPos :=
  match s.loc pid with
  | some l => pieceMoves (pieceOwner pid) (pieceType pid) (mgBoard s) (oppositionPositions s player) l
  | none => []

/-- The `position` computed by the first loop of `is_in_check`: the location of
the last General-typed piece in the player's collection (`None` if there is
none). -/
def generalPos (s : GameSt) (player : Owner) : Option IPos :=
  (sideList s player).foldl
    (fun acc pid => if pieceType pid = PType.General then s.loc pid else acc) none

/-- The `all_positions` union of the second loop of `is_in_check`: every legal
move of every piece of the player's opponent. -/
def attackedCells (s : GameSt) (player : Owner) : List IPos :=
  (sideList s (oppositeOwner player)).foldl
    (fun acc pid => acc ++ movesOfPiece s (oppositeOwner player) pid) []

/-- `JanggiGame.is_in_check(player)`. -/
def isInCheck (s : GameSt) (player : Owner) : Bool :=
  match generalPos s player with
  | some p => decide (p ∈ attackedCells s player)
  | none => false

/-- `JanggiGame.leaves_in_check(move_from, move_to)`: simulate the move
(including any capture), test check for the moved piece's owner, then undo
everything.  Returns the check flag and the post-call state.  The `none`
branch of the first match is unreachable: both callers pass an occupied
`move_from`. -/
def leavesInCheck (s : GameSt) (mvFrom mvTo : IPos) : Bool × GameSt :=
  match s.board mvFrom with
  | none => (false, s)
  | some pid =>
    let b1 := updB s.board mvFrom none
    match b1 mvTo with
    | some oid =>
      let b2 := updB b1 mvTo none
      let l2 := updL s.loc oid none
      let blue2 := if oid ∈ s.redPieces then s.bluePieces else s.bluePieces.erase oid
      let red2 := if oid ∈ s.redPieces then s.redPieces.erase oid else s.redPieces
      let b3 := updB b2 mvTo (some pid)
      let l3 := updL l2 pid (some mvTo)
      let chk := isInCheck ⟨b3, l3, blue2, red2, s.turn, s.state⟩ (pieceOwner pid)
      let b4 := updB b3 mvFrom (some pid)
      let l4 := updL l3 pid (some mvFrom)
      let b5 := updB b4 mvTo (some oid)
      let l5 := updL l4 oid (some mvTo)
      let blue5 := if pieceOwner oid = Owner.blue then blue2 ++ [oid] else blue2
      let red5 := if pieceOwner oid = Owner.blue then red2 else red2 ++ [oid]
      (chk, ⟨b5, l5, blue5, red5, s.turn, s.state⟩)
    | none =>
      let b3 := updB b1 mvTo (some pid)
      let l3 := updL s.loc pid (some mvTo)
      let chk := isInCheck ⟨b3, l3, s.bluePieces, s.redPieces, s.turn, s.state⟩ (pieceOwner pid)
      let b4 := updB b3 mvFrom (some pid)
      let l4 := updL l3 pid (some mvFrom)
      let b5 := updB b4 mvTo none
      (chk, ⟨b5, l4, s.bluePieces, s.redPieces, s.turn, s.state⟩)

/-- `JanggiGame.update_board(move_from, move_to)`: commit a move, detaching any
captured piece from the board and from its collection. -/
def updateBoard (s : GameSt) (mvFrom mvTo : IPos) : GameSt :=
  match s.board mvFrom with
  | none => s
  | some pid =>
    let b1 := updB s.board mvFrom none
    match b1 mvTo with
    | some oid =>
      let b2 := updB b1 mvTo none
      let l2 := updL s.loc oid none
      let blue2 := if oid ∈ s.redPieces then s.bluePieces else s.bluePieces.erase oid
      let red2 := if oid ∈ s.redPieces then s.redPieces.erase oid else s.redPieces
      ⟨updB b2 mvTo (some pid), updL l2 pid (some mvTo), blue2, red2, s.turn, s.state⟩
    | none =>
      ⟨updB b1 mvTo (some pid), updL s.loc pid (some mvTo), s.bluePieces, s.redPieces,
        s.turn, s.state⟩

/-- `JanggiGame.change_turn()`. -/
def changeTurn (s : GameSt) : GameSt :=
  { s with turn := match s.turn with
      | Owner.blue => Owner.red
      | Owner.red => Owner.blue }

/-- `JanggiGame.set_game_state(player)`. -/
def setGameState (s : GameSt) (player : Owner) : GameSt :=
  { s with state := if player = Owner.blue then GState.BLUE_WON else GState.RED_WON }

/-- Inner loop of `is_check_mate`: `for move_to in moves: if not
self.leaves_in_check(piece.get_location(), move_to): return False`.  The Bool
is `true` when an escaping move was found; the piece's location is re-read
before each simulation, as in the source.  The `none` location branch is
unreachable from the program's calls. -/
def mateInner (pid : Nat) : List IPos → GameSt → Bool × GameSt
  | [], s => (false, s)
  | m :: ms, s =>
    match s.loc pid with
    | none => (false, s)
    | some f =>
      let r := leavesInCheck s f m
      if r.1 then mateInner pid ms r.2
      else (true, r.2)

/-- Outer loop of `is_check_mate`: Python's `for piece in <live list>` is an
index-based iteration over a list that `leaves_in_check` may mutate, modelled
by re-reading the list at each index.  The fuel argument only serves totality:
one unit is spent per index probe, and the iteration probes exactly
`length + 1` indices whenever the list keeps its length (which every
simulate-and-revert call guarantees), so the entry fuel below is never
exhausted on the program's calls. -/
def mateOuter (player : Owner) : Nat → Nat → GameSt → Bool × GameSt
  | 0, _, s => (true, s)
  | Nat.succ fuel, i, s =>
    let l := sideList s player
    if h : i < l.length then
      let pid := l.get ⟨i, h⟩
      let inner := mateInner pid (movesOfPiece s player pid) s
      if inner.1 then (false, inner.2)
      else mateOuter player fuel (i + 1) inner.2
    else (true, s)

/-- `JanggiGame.is_check_mate(player)`. -/
def isCheckMate (s : GameSt) (player : Owner) : Bool × GameSt :=
  mateOuter player ((sideList s player).length + 1) 0 s

/-- The `translate` dict of `make_move`. -/
def colIndex (c : Char) : Option Int :=
  if c = 'a' then some 0
  else if c = 'b' then some 1
  else if c = 'c' then some 2
  else if c = 'd' then some 3
  else if c = 'e' then some 4
  else if c = 'f' then some 5
  else if c = 'g' then some 6
  else if c = 'h' then some 7
  else if c = 'i' then some 8
  else none

/-- `int(move[1:])` on the rank substring: defined on non-empty all-digit
strings, `none` models the `ValueError` raised otherwise. -/
def parseRank (cs : List Char) : Option Int :=
  if cs = [] then none
  else if cs.all Char.isDigit then
    some (Int.ofNat (cs.foldl (fun n c => n * 10 + (c.toNat - 48)) 0))
  else none

/-- `(int(move[1:]) - 1, translate[move[0]])`: `none` models the uncaught
`IndexError` / `ValueError` / `KeyError` on malformed notation. -/
def parseCoord (mv : String) : Option IPos :=
  match mv.data with
  | [] => none
  | c :: rest =>
    match parseRank rest, colIndex c with
    | some r, some col => some (r - 1, col)
    | _, _ => none

/-- `JanggiGame.make_move(move_from, move_to)`.  Both coordinates are
translated before any validity check (destination first, as in the source);
`none` models an uncaught exception escaping `make_move`. -/
def makeMove (s : GameSt) (moveFrom moveTo : String) : Option (Bool × GameSt) :=
  match parseCoord moveTo, parseCoord moveFrom with
  | some toP, some fromP =>
    if s.state ≠ GState.UNFINISHED then some (false, s)
    else
      match s.board fromP with
      | none => some (false, s)
      | some pid =>
        let player := pieceOwner pid
        if player ≠ s.turn then some (false, s)
        else if moveFrom = moveTo ∧ ¬ isInCheck s player then some (true, changeTurn s)
        else if toP ∉ movesOfPiece s player pid then some (false, s)
        else
          let lic := leavesInCheck s fromP toP
          if lic.1 then some (false, lic.2)
          else
            let s2 := updateBoard lic.2 fromP toP
            if isInCheck s2 (oppositeOwner s2.turn) then
              let mate := isCheckMate s2 (oppositeOwner s2.turn)
              if mate.1 then some (true, setGameState mate.2 player)
              else some (true, changeTurn mate.2)
            else some (true, changeTurn s2)
  | _, _ => none

/-- The fixed initial layout of `create_pieces` / `add_pieces`, as pairs of
creation index and starting cell. -/
def initialPlacement : List (Nat × IPos) :=
  [(0, (8, 4)), (1, (9, 3)), (2, (9, 2)), (3, (9, 1)), (4, (9, 0)), (5, (7, 1)),
   (6, (9, 5)), (7, (9, 7)), (8, (9, 6)), (9, (9, 8)), (10, (7, 7)),
   (11, (6, 0)), (12, (6, 2)), (13, (6, 4)), (14, (6, 6)), (15, (6, 8)),
   (16, (1, 4)), (17, (0, 3)), (18, (0, 2)), (19, (0, 1)), (20, (0, 0)), (21, (2, 1)),
   (22, (0, 5)), (23, (0, 7)), (24, (0, 6)), (25, (0, 8)), (26, (2, 7)),
   (27, (3, 0)), (28, (3, 2)), (29, (3, 4)), (30, (3, 6)), (31, (3, 8))]

/-- The state built by `JanggiGame.__init__`. -/
def initialState : GameSt where
  board := fun p => (initialPlacement.find? (fun e => e.2 == p)).map (·.1)
  loc := fun pid => (initialPlacement.find? (fun e => e.1 == pid)).map (·.2)
  bluePieces := [0, 1, 2, 3, 4, 5, 6, 7, 8, 9, 10, 11, 12, 13, 14, 15]
  redPieces := [16, 17, 18, 19, 20, 21, 22, 23, 24, 25, 26, 27, 28, 29, 30, 31]
  turn := Owner.blue
  state := GState.UNFINISHED

/-! ### Auxiliary states, relations and spec-side predicates used by the theorems -/

/-- Red cannon on corner `(0, 3)`, the red-fortress centre `(1, 4)` occupied by
a non-Cannon piece, the top-edge middle `(0, 4)` empty. -/
def c4BoardA : MGBoard := fun p =>
  if p = (0, 3) then some PType.Cannon
  else if p = (1, 4) then some PType.Guard
  else none

/-- Red cannon on corner `(0, 3)`, `(0, 4)` occupied by a non-Cannon piece, the
red-fortress centre `(1, 4)` empty. -/
def c4BoardB : MGBoard := fun p =>
  if p = (0, 3) then some PType.Cannon
  else if p = (0, 4) then some PType.Guard
  else none

/-- Red cannon on corner `(0, 3)` with the diagonal jump enabled and a friendly
(not-in-opposition) piece on the target corner `(2, 5)`. -/
def c5Board : MGBoard := fun p =>
  if p = (0, 3) then some PType.Cannon
  else if p = (0, 4) then some PType.Guard
  else if p = (2, 5) then some PType.Soldier
  else none

/-- Red soldier on the blue-fortress corner `(7, 3)` with a friendly piece on
the diagonal target `(8, 4)`. -/
def c5SBoard : MGBoard := fun p =>
  if p = (7, 3) then some PType.Soldier
  else if p = (8, 4) then some PType.Guard
  else none

/-- A finished game: the initial layout with the status set to a win. -/
def blueWonState : GameSt := { initialState with state := GState.BLUE_WON }

/-- Direction vector of each orthogonal cannon direction. -/
def vecO : DirO → IPos
  | DirO.oPE => (1, 0)
  | DirO.oME => (-1, 0)
  | DirO.oEP => (0, 1)
  | DirO.oEM => (0, -1)

/-- The union demanded by the spec's check test: `legal_moves(board,
S-positions)` over every piece owned by S's opponent. -/
def specCheckUnion (s : GameSt) (player : Owner) : List IPos :=
  (sideList s (oppositeOwner player)).flatMap (movesOfPiece s (oppositeOwner player))

/-- Thread a `make_move` call: the state after the call (rejections and
exceptions leave the state unchanged). -/
def nxt (s : GameSt) (a b : String) : GameSt := ((makeMove s a b).getD (false, s)).2

def sc1 : GameSt := nxt initialState "a7" "b7"

def sc2 : GameSt := nxt sc1 "a4" "a5"

def sc3 : GameSt := nxt sc2 "b7" "b6"

def sc4 : GameSt := nxt sc3 "a1" "a4"

def sc5 : GameSt := nxt sc4 "c7" "d7"

def bare1 : GameSt := nxt initialState "c1" "e3"

def bare2 : GameSt := nxt bare1 "a7" "b7"

def bare3 : GameSt := nxt bare2 "a4" "a5"

def bare4 : GameSt := nxt bare3 "b3" "b6"

/-- A small consistent position: blue soldier on `(5, 0)`, red soldier on
`(4, 0)` listed first in red's collection, both Generals at home. -/
def c1State : GameSt where
  board := fun p =>
    if p = (4, 0) then some 27
    else if p = (5, 0) then some 11
    else if p = (1, 4) then some 16
    else if p = (8, 4) then some 0
    else none
  loc := fun pid =>
    if pid = 27 then some (4, 0)
    else if pid = 11 then some (5, 0)
    else if pid = 16 then some (1, 4)
    else if pid = 0 then some (8, 4)
    else none
  bluePieces := [0, 11]
  redPieces := [27, 16]
  turn := Owner.blue
  state := GState.UNFINISHED


/-! ### Claim C2: the commit tail of `make_move`

`is_check_mate` iterates the live collection while `leaves_in_check` permutes
the *captured* side's collection, so its result must be related to a clean
per-entry-state quantification.  `MateRel pl s2 sA` says `sA` is the entry
state `s2` with at most the opponent-of-`pl` collection reordered — exactly
the drift `leaves_in_check` can introduce while checkmate of `pl` is being
decided. -/
def MateRel (pl : Owner) (s2 sA : GameSt) : Prop :=
  sA.board = s2.board ∧ sA.loc = s2.loc ∧ sA.turn = s2.turn ∧ sA.state = s2.state ∧
  sideList sA pl = sideList s2 pl ∧
  (sideList sA (oppositeOwner pl)).Perm (sideList s2 (oppositeOwner pl))

/-- The side conditions under which `is_check_mate` runs on the program's
call sites: every piece of the examined side sits on the board where its
collection and location say, and every capture target of one of its moves is a
coherent enemy piece. -/
def MateHyps (s : GameSt) (pl : Owner) : Prop :=
  ∀ pid ∈ sideList s pl, ∃ f,
    s.loc pid = some f ∧ s.board f = some pid ∧ pieceOwner pid = pl ∧
    ∀ m ∈ movesOfPiece s pl pid, f ≠ m ∧
      ∀ oid, s.board m = some oid →
        s.loc oid = some m ∧ oid ≠ pid ∧
        (oid ∈ s.redPieces ↔ pieceOwner oid = Owner.red) ∧
        (pieceOwner oid = Owner.blue → oid ∈ s.bluePieces) ∧
        pieceOwner oid ≠ pl

/-- The spec's checkmate condition, stated directly from its words: no
simulated move of any piece owned by `pl` leaves `pl` out of check. -/
def specMate (s : GameSt) (pl : Owner) : Prop :=
  ∀ pid ∈ sideList s pl, ∀ f, s.loc pid = some f →
    ∀ m ∈ movesOfPiece s pl pid, (leavesInCheck s f m).1 = true

/-- A hand-built position: blue to move, red reduced to its General on (0,3);
blue General (8,4), blue Chariots at (0,8) and (5,8).  Moving the (5,8)
chariot to (1,8) mates. -/
def c2State : GameSt where
  board := fun p => if p = ((0 : Int), (3 : Int)) then some 16
    else if p = ((8 : Int), (4 : Int)) then some 0
    else if p = ((0 : Int), (8 : Int)) then some 4
    else if p = ((5 : Int), (8 : Int)) then some 9
    else none
  loc := fun pid => if pid = 16 then some (0, 3)
    else if pid = 0 then some (8, 4)
    else if pid = 4 then some (0, 8)
    else if pid = 9 then some (5, 8)
    else none
  bluePieces := [0, 4, 9]
  redPieces := [16]
  turn := Owner.blue
  state := GState.UNFINISHED

/-- The committed state after blue plays (5,8) → (1,8) in `c2State`. -/
def c2Commit : GameSt :=
  updateBoard (leavesInCheck c2State (5, 8) (1, 8)).2 (5, 8) (1, 8)

/-- An ordinary position before blue's checking move `i6 → i2`: red General
(0,3), red Chariot (5,6), red Soldiers on (8,4) and on its palace-diagonal
neighbour (7,3); blue General (7,5), blue Chariots (0,8) and (5,8).  The red
collection lists the (8,4) soldier before the (7,3) soldier and the chariot. -/
def c2BugPre : GameSt where
  board := fun p => if p = ((0 : Int), (3 : Int)) then some 16
    else if p = ((5 : Int), (6 : Int)) then some 20
    else if p = ((8 : Int), (4 : Int)) then some 27
    else if p = ((7 : Int), (3 : Int)) then some 28
    else if p = ((7 : Int), (5 : Int)) then some 0
    else if p = ((0 : Int), (8 : Int)) then some 4
    else if p = ((5 : Int), (8 : Int)) then some 9
    else none
  loc := fun pid => if pid = 16 then some (0, 3)
    else if pid = 20 then some (5, 6)
    else if pid = 27 then some (8, 4)
    else if pid = 28 then some (7, 3)
    else if pid = 0 then some (7, 5)
    else if pid = 4 then some (0, 8)
    else if pid = 9 then some (5, 8)
    else none
  bluePieces := [0, 4, 9]
  redPieces := [27, 28, 20, 16]
  turn := Owner.blue
  state := GState.UNFINISHED

/-- The state in which `make_move` evaluates check and checkmate of red after
committing blue's `i6 → i2` in `c2BugPre`. -/
def c2BugCommit : GameSt :=
  updateBoard (leavesInCheck c2BugPre (5, 8) (1, 8)).2 (5, 8) (1, 8)

theorem soldierStep_mem {b : MGBoard} {opp : Finset IPos} {cur m : IPos}
    (h : m ∈ soldierStep b opp cur) : m = cur := by
  unfold soldierStep at h
  split_ifs at h <;> simp_all

theorem soldierSteps_mem {b : MGBoard} {opp : Finset IPos} {p q w m : IPos}
    (h : m ∈ soldierStep b opp p ++ soldierStep b opp q ++ soldierStep b opp w) :
    m = p ∨ m = q ∨ m = w := by
  simp only [List.mem_append] at h
  rcases h with (h | h) | h
  · exact Or.inl (soldierStep_mem h)
  · exact Or.inr (Or.inl (soldierStep_mem h))
  · exact Or.inr (Or.inr (soldierStep_mem h))

/-- Every red-soldier move is the forward step `(r + 1, c)`, a sideways step,
or one of the fixed blue-palace diagonal destinations. -/
theorem redSoldierMoves_chr :
    ∀ (b : MGBoard) (opp : Finset IPos) (r c : Int) (m : IPos),
       m ∈ redSoldierMoves b opp (r, c) →
       m = (r + 1, c) ∨ m = (r, c + 1) ∨ m = (r, c - 1) ∨
       ((r, c) = ((7 : Int), (3 : Int)) ∨ (r, c) = ((7 : Int), (5 : Int))) ∧ m = (8, 4) ∨
       (r, c) = ((8 : Int), (4 : Int)) ∧ (m = (9, 3) ∨ m = (9, 5)) := by
  intro b opp r c m h
  unfold redSoldierMoves at h
  split_ifs at h with hob h73 h75 h84
  · rcases List.mem_append.mp h with h | h
    · exact Or.inr (Or.inr (Or.inr (Or.inl ⟨Or.inl h73, List.mem_singleton.mp h⟩)))
    · rcases soldierSteps_mem h with h | h | h
      · exact Or.inl h
      · exact Or.inr (Or.inl h)
      · exact Or.inr (Or.inr (Or.inl h))
  · rcases List.mem_append.mp h with h | h
    · exact Or.inr (Or.inr (Or.inr (Or.inl ⟨Or.inr h75, List.mem_singleton.mp h⟩)))
    · rcases soldierSteps_mem h with h | h | h
      · exact Or.inl h
      · exact Or.inr (Or.inl h)
      · exact Or.inr (Or.inr (Or.inl h))
  · rcases List.mem_append.mp h with h | h
    · rcases List.mem_cons.mp h with h | h
      · exact Or.inr (Or.inr (Or.inr (Or.inr ⟨h84, Or.inl h⟩)))
      · exact Or.inr (Or.inr (Or.inr (Or.inr ⟨h84, Or.inr (List.mem_singleton.mp h)⟩)))
    · rcases soldierSteps_mem h with h | h | h
      · exact Or.inl h
      · exact Or.inr (Or.inl h)
      · exact Or.inr (Or.inr (Or.inl h))
  · rcases List.mem_append.mp h with h | h
    · exact absurd h (List.not_mem_nil m)
    · rcases soldierSteps_mem h with h | h | h
      · exact Or.inl h
      · exact Or.inr (Or.inl h)
      · exact Or.inr (Or.inr (Or.inl h))
  · exact absurd h (List.not_mem_nil m)

/-- Every blue-soldier move is the forward step `(r - 1, c)`, a sideways step,
or one of the fixed red-palace diagonal destinations. -/
theorem blueSoldierMoves_chr :
    ∀ (b : MGBoard) (opp : Finset IPos) (r c : Int) (m : IPos),
       m ∈ blueSoldierMoves b opp (r, c) →
       m = (r - 1, c) ∨ m = (r, c + 1) ∨ m = (r, c - 1) ∨
       ((r, c) = ((2 : Int), (3 : Int)) ∨ (r, c) = ((2 : Int), (5 : Int))) ∧ m = (1, 4) ∨
       (r, c) = ((1 : Int), (4 : Int)) ∧ (m = (0, 3) ∨ m = (0, 5)) := by
  intro b opp r c m h
  unfold blueSoldierMoves at h
  split_ifs at h with hob h23 h25 h14
  · rcases List.mem_append.mp h with h | h
    · exact Or.inr (Or.inr (Or.inr (Or.inl ⟨Or.inl h23, List.mem_singleton.mp h⟩)))
    · rcases soldierSteps_mem h with h | h | h
      · exact Or.inl h
      · exact Or.inr (Or.inl h)
      · exact Or.inr (Or.inr (Or.inl h))
  · rcases List.mem_append.mp h with h | h
    · exact Or.inr (Or.inr (Or.inr (Or.inl ⟨Or.inr h25, List.mem_singleton.mp h⟩)))
    · rcases soldierSteps_mem h with h | h | h
      · exact Or.inl h
      · exact Or.inr (Or.inl h)
      · exact Or.inr (Or.inr (Or.inl h))
  · rcases List.mem_append.mp h with h | h
    · rcases List.mem_cons.mp h with h | h
      · exact Or.inr (Or.inr (Or.inr (Or.inr ⟨h14, Or.inl h⟩)))
      · exact Or.inr (Or.inr (Or.inr (Or.inr ⟨h14, Or.inr (List.mem_singleton.mp h)⟩)))
    · rcases soldierSteps_mem h with h | h | h
      · exact Or.inl h
      · exact Or.inr (Or.inl h)
      · exact Or.inr (Or.inr (Or.inl h))
  · rcases List.mem_append.mp h with h | h
    · exact absurd h (List.not_mem_nil m)
    · rcases soldierSteps_mem h with h | h | h
      · exact Or.inl h
      · exact Or.inr (Or.inl h)
      · exact Or.inr (Or.inr (Or.inl h))
  · exact absurd h (List.not_mem_nil m)

/-- Claim C3 (amended): a Soldier's non-diagonal moves are the single forward
step — row-increasing for a red Soldier, row-decreasing for a blue Soldier —
and one step sideways in either column direction; the only other moves are the
fixed fortress-diagonal destinations from the three special palace cells. -/
theorem claim_C3 :
    (∀ (b : MGBoard) (opp : Finset IPos) (r c : Int) (m : IPos),
       m ∈ redSoldierMoves b opp (r, c) →
       m = (r + 1, c) ∨ m = (r, c + 1) ∨ m = (r, c - 1) ∨
       ((r, c) = ((7 : Int), (3 : Int)) ∨ (r, c) = ((7 : Int), (5 : Int))) ∧ m = (8, 4) ∨
       (r, c) = ((8 : Int), (4 : Int)) ∧ (m = (9, 3) ∨ m = (9, 5))) ∧
    (∀ (b : MGBoard) (opp : Finset IPos) (r c : Int) (m : IPos),
       m ∈ blueSoldierMoves b opp (r, c) →
       m = (r - 1, c) ∨ m = (r, c + 1) ∨ m = (r, c - 1) ∨
       ((r, c) = ((2 : Int), (3 : Int)) ∨ (r, c) = ((2 : Int), (5 : Int))) ∧ m = (1, 4) ∨
       (r, c) = ((1 : Int), (4 : Int)) ∧ (m = (0, 3) ∨ m = (0, 5))) :=
  ⟨redSoldierMoves_chr, blueSoldierMoves_chr⟩

/-- Claim C3, counterexample to the claim as stated: on an otherwise empty
board, the red Soldier's forward step from `(3, 0)` is `(4, 0)` — row four is
greater than row three, so the red forward step is row-increasing, not
row-decreasing, and the move set holds no row-decreasing cell at all (and
dually the blue Soldier's forward step from `(3, 0)` is the row-decreasing
`(2, 0)`). -/
theorem claim_C3_counterexample :
    redSoldierMoves (fun _ => none) ∅ (3, 0) = [(4, 0), (3, 1)] ∧
    blueSoldierMoves (fun _ => none) ∅ (3, 0) = [(2, 0), (3, 1)] := by decide

/-- Claim C3, witness: the amended theorem applied to the red Soldier at
`(3, 0)` on the empty board and its member move `(4, 0)`. -/
theorem claim_C3_witness :
    ((4, 0) : IPos) ∈ redSoldierMoves (fun _ => none) ∅ (3, 0) ∧
    (((4, 0) : IPos) = ((3 : Int) + 1, (0 : Int)) ∨
     ((4, 0) : IPos) = ((3 : Int), (0 : Int) + 1) ∨
     ((4, 0) : IPos) = ((3 : Int), (0 : Int) - 1) ∨
     (((3 : Int), (0 : Int)) = ((7 : Int), (3 : Int)) ∨
      ((3 : Int), (0 : Int)) = ((7 : Int), (5 : Int))) ∧ ((4, 0) : IPos) = (8, 4) ∨
     ((3 : Int), (0 : Int)) = ((8 : Int), (4 : Int)) ∧
      (((4, 0) : IPos) = (9, 3) ∨ ((4, 0) : IPos) = (9, 5))) :=
  ⟨by decide, claim_C3.1 (fun _ => none) ∅ 3 0 (4, 0) (by decide)⟩

/-! ### Claims C4 and C5: the cannon's fortress diagonal -/

/-- Claim C4: evaluation of `Cannon.get_legal_moves` at the failing inputs.
With the red-fortress centre `(1, 4)` occupied by a non-Cannon piece the
corner-to-corner jump `(0, 3) → (2, 5)` is absent, and with the centre empty
but the top-edge middle `(0, 4)` occupied it is present: the source tests
`(0, 4)` instead of the centre `(1, 4)` for the red fortress (its own comment
says "middle of fortress occupied"; the blue side correctly tests the centre
`(8, 4)`). -/
theorem claim_C4 :
    c4BoardA (1, 4) = some PType.Guard ∧ c4BoardA (0, 4) = none ∧
    ((2, 5) : IPos) ∉ cannonMoves c4BoardA ∅ (0, 3) ∧
    c4BoardB (0, 4) = some PType.Guard ∧ c4BoardB (1, 4) = none ∧
    ((2, 5) : IPos) ∈ cannonMoves c4BoardB ∅ (0, 3) := by decide

/-- Claim C5: evaluation at the failing inputs.  The cannon's fortress-diagonal
destination and the soldier's fortress-diagonal destination are produced even
when occupied by a friendly piece (a cell that is occupied and not in the
opposition set), because the source adds those diagonal targets without the
friendly-occupancy check its class docstrings promise. -/
theorem claim_C5 :
    ((2, 5) : IPos) ∈ cannonMoves c5Board ∅ (0, 3) ∧
    (c5Board (2, 5)).isSome ∧ ((2, 5) : IPos) ∉ (∅ : Finset IPos) ∧
    ((8, 4) : IPos) ∈ redSoldierMoves c5SBoard ∅ (7, 3) ∧
    (c5SBoard (8, 4)).isSome ∧ ((8, 4) : IPos) ∉ (∅ : Finset IPos) := by decide

/-! ### Claims C10 and C8: notation translation and terminal states -/

/-- Claim C10: `make_move` translates both coordinates before any validity
check and does not guard the translation.  A column letter outside a-i
(`"j1"`) or non-numeric rank characters (`"axx"`) make the translation raise
(modelled as `none`) instead of returning the rejection value `False` — even
when the game is already won, the case an earlier validity check would have
rejected first. -/
theorem claim_C10 :
    makeMove initialState "j1" "e3" = none ∧
    makeMove blueWonState "axx" "a1" = none := by
  constructor <;> rfl

/-- Claim C8 (amended): once the state is `RED_WON` or `BLUE_WON` it never
changes again: every subsequent `make_move` call whose two arguments are
well-formed coordinate strings returns `False` and leaves the whole state
(board, collections, turn, status) untouched; malformed arguments instead
raise out of the translation step before the status check. -/
theorem claim_C8 :
    ∀ (s : GameSt) (mf mt : String) (fp tp : IPos),
    s.state = GState.RED_WON ∨ s.state = GState.BLUE_WON →
    parseCoord mf = some fp → parseCoord mt = some tp →
    makeMove s mf mt = some (false, s) := by
  intro s mf mt fp tp hs hf ht
  unfold makeMove
  rw [ht, hf]
  have hne : s.state ≠ GState.UNFINISHED := by rcases hs with h | h <;> simp [h]
  simp [hne]

/-- Claim C8, counterexample to the claim as stated: after the game is won, a
`make_move` call with the malformed origin `"j1"` raises out of the
translation (modelled as `none`) instead of returning `False`, so "every
subsequent make_move call, for any arguments, returns False" does not hold. -/
theorem claim_C8_counterexample : makeMove blueWonState "j1" "a1" = none := rfl

/-- Claim C8, witness: the amended theorem applied to a finished game and the
well-formed call `a1 → b1`. -/
theorem claim_C8_witness : makeMove blueWonState "a1" "b1" = some (false, blueWonState) :=
  claim_C8 blueWonState "a1" "b1" (0, 0) (0, 1) (Or.inr rfl) rfl rfl

/-! ### The origin cell is never a legal destination -/

theorem blueGeneralStep_mem {b : MGBoard} {opp : Finset IPos} {cur m : IPos}
    (h : m ∈ blueGeneralStep b opp cur) : m = cur := by
  unfold blueGeneralStep at h
  split_ifs at h <;> simp_all

theorem redGeneralStep_mem {b : MGBoard} {opp : Finset IPos} {cur m : IPos}
    (h : m ∈ redGeneralStep b opp cur) : m = cur := by
  unfold redGeneralStep at h
  split_ifs at h <;> simp_all

theorem blueGeneralMoves_ne_self (b : MGBoard) (opp : Finset IPos) (loc0 : IPos) :
    loc0 ∉ blueGeneralMoves b opp loc0 := by
  intro h
  unfold blueGeneralMoves at h
  split_ifs at h with hf hd
  · simp only [List.mem_append] at h
    rcases h with (((h | h) | h) | h) | (((h | h) | h) | h) <;>
      (have he := blueGeneralStep_mem h; rw [Prod.ext_iff] at he; dsimp only at he; omega)
  · simp only [List.nil_append, List.mem_append] at h
    rcases h with ((h | h) | h) | h <;>
      (have he := blueGeneralStep_mem h; rw [Prod.ext_iff] at he; dsimp only at he; omega)
  · exact absurd h (List.not_mem_nil loc0)

theorem redGeneralMoves_ne_self (b : MGBoard) (opp : Finset IPos) (loc0 : IPos) :
    loc0 ∉ redGeneralMoves b opp loc0 := by
  intro h
  unfold redGeneralMoves at h
  split_ifs at h with hf hd
  · simp only [List.mem_append] at h
    rcases h with (((h | h) | h) | h) | (((h | h) | h) | h) <;>
      (have he := redGeneralStep_mem h; rw [Prod.ext_iff] at he; dsimp only at he; omega)
  · simp only [List.nil_append, List.mem_append] at h
    rcases h with ((h | h) | h) | h <;>
      (have he := redGeneralStep_mem h; rw [Prod.ext_iff] at he; dsimp only at he; omega)
  · exact absurd h (List.not_mem_nil loc0)

theorem horseFinal_mem {b : MGBoard} {opp : Finset IPos} {cur m : IPos}
    (h : m ∈ horseFinal b opp cur) : m = cur := by
  unfold horseFinal at h
  split_ifs at h <;> simp_all

theorem horseMid_mem {b : MGBoard} {opp : Finset IPos} {loc0 cur m : IPos}
    (h : m ∈ horseMid b opp loc0 cur) :
    (m.1 = cur.1 + 1 ∨ m.1 = cur.1 - 1) ∧ (m.2 = cur.2 + 1 ∨ m.2 = cur.2 - 1) := by
  unfold horseMid at h
  split_ifs at h <;>
    first
    | exact absurd h (List.not_mem_nil m)
    | (simp only [List.mem_append] at h
       rcases h with h | h <;>
         (have he := horseFinal_mem h; rw [Prod.ext_iff] at he; dsimp only at he; omega))

theorem horseMoves_ne_self (b : MGBoard) (opp : Finset IPos) (loc0 : IPos) :
    loc0 ∉ horseMoves b opp loc0 := by
  intro h
  unfold horseMoves at h
  split_ifs at h
  · simp only [List.mem_append] at h
    rcases h with ((h | h) | h) | h <;>
      (have hm := horseMid_mem h; dsimp only at hm; omega)
  · exact absurd h (List.not_mem_nil loc0)

theorem elephantFinal_mem {b : MGBoard} {opp : Finset IPos} {cur m : IPos}
    (h : m ∈ elephantFinal b opp cur) : m = cur := by
  unfold elephantFinal at h
  split_ifs at h <;> simp_all

theorem elephantMid2_pp {b : MGBoard} {opp : Finset IPos} {cur m : IPos}
    (h : m ∈ elephantMid2 b opp (some Dir4.pp) cur) : m = (cur.1 + 1, cur.2 + 1) := by
  unfold elephantMid2 at h
  split_ifs at h <;>
    first
    | exact absurd h (List.not_mem_nil m)
    | exact elephantFinal_mem h

theorem elephantMid2_pm {b : MGBoard} {opp : Finset IPos} {cur m : IPos}
    (h : m ∈ elephantMid2 b opp (some Dir4.pm) cur) : m = (cur.1 + 1, cur.2 - 1) := by
  unfold elephantMid2 at h
  split_ifs at h <;>
    first
    | exact absurd h (List.not_mem_nil m)
    | exact elephantFinal_mem h

theorem elephantMid2_mp {b : MGBoard} {opp : Finset IPos} {cur m : IPos}
    (h : m ∈ elephantMid2 b opp (some Dir4.mp) cur) : m = (cur.1 - 1, cur.2 + 1) := by
  unfold elephantMid2 at h
  split_ifs at h <;>
    first
    | exact absurd h (List.not_mem_nil m)
    | exact elephantFinal_mem h

theorem elephantMid2_mm {b : MGBoard} {opp : Finset IPos} {cur m : IPos}
    (h : m ∈ elephantMid2 b opp (some Dir4.mm) cur) : m = (cur.1 - 1, cur.2 - 1) := by
  unfold elephantMid2 at h
  split_ifs at h <;>
    first
    | exact absurd h (List.not_mem_nil m)
    | exact elephantFinal_mem h

theorem elephantMid1_mem {b : MGBoard} {opp : Finset IPos} {loc0 cur m : IPos}
    (h : m ∈ elephantMid1 b opp loc0 cur) :
    (m.1 = cur.1 + 2 ∨ m.1 = cur.1 - 2) ∧ (m.2 = cur.2 + 2 ∨ m.2 = cur.2 - 2) := by
  unfold elephantMid1 at h
  split_ifs at h
  · exact absurd h (List.not_mem_nil m)
  · rcases List.mem_append.mp h with h | h
    · have he := elephantMid2_pp h; rw [Prod.ext_iff] at he; dsimp only at he; omega
    · have he := elephantMid2_pm h; rw [Prod.ext_iff] at he; dsimp only at he; omega
  · rcases List.mem_append.mp h with h | h
    · have he := elephantMid2_mp h; rw [Prod.ext_iff] at he; dsimp only at he; omega
    · have he := elephantMid2_mm h; rw [Prod.ext_iff] at he; dsimp only at he; omega
  · rcases List.mem_append.mp h with h | h
    · have he := elephantMid2_pp h; rw [Prod.ext_iff] at he; dsimp only at he; omega
    · have he := elephantMid2_mp h; rw [Prod.ext_iff] at he; dsimp only at he; omega
  · rcases List.mem_append.mp h with h | h
    · have he := elephantMid2_pm h; rw [Prod.ext_iff] at he; dsimp only at he; omega
    · have he := elephantMid2_mm h; rw [Prod.ext_iff] at he; dsimp only at he; omega
  · exact absurd h (List.not_mem_nil m)

theorem elephantMoves_ne_self (b : MGBoard) (opp : Finset IPos) (loc0 : IPos) :
    loc0 ∉ elephantMoves b opp loc0 := by
  intro h
  unfold elephantMoves at h
  split_ifs at h
  · simp only [List.mem_append] at h
    rcases h with ((h | h) | h) | h <;>
      (have hm := elephantMid1_mem h; dsimp only at hm; omega)
  · exact absurd h (List.not_mem_nil loc0)

theorem redSoldierMoves_ne_self (b : MGBoard) (opp : Finset IPos) (loc0 : IPos) :
    loc0 ∉ redSoldierMoves b opp loc0 := by
  intro h
  have hc := redSoldierMoves_chr b opp loc0.1 loc0.2 loc0 h
  rcases hc with he | he | he | ⟨hl, he⟩ | ⟨hl, he⟩
  · rw [Prod.ext_iff] at he; dsimp only at he; omega
  · rw [Prod.ext_iff] at he; dsimp only at he; omega
  · rw [Prod.ext_iff] at he; dsimp only at he; omega
  · rcases hl with hl | hl <;> (rw [he] at hl; exact absurd hl (by decide))
  · rcases he with he | he <;> (rw [he] at hl; exact absurd hl (by decide))

theorem blueSoldierMoves_ne_self (b : MGBoard) (opp : Finset IPos) (loc0 : IPos) :
    loc0 ∉ blueSoldierMoves b opp loc0 := by
  intro h
  have hc := blueSoldierMoves_chr b opp loc0.1 loc0.2 loc0 h
  rcases hc with he | he | he | ⟨hl, he⟩ | ⟨hl, he⟩
  · rw [Prod.ext_iff] at he; dsimp only at he; omega
  · rw [Prod.ext_iff] at he; dsimp only at he; omega
  · rw [Prod.ext_iff] at he; dsimp only at he; omega
  · rcases hl with hl | hl <;> (rw [he] at hl; exact absurd hl (by decide))
  · rcases he with he | he <;> (rw [he] at hl; exact absurd hl (by decide))

theorem chariotGo_ne_self (b : MGBoard) (opp : Finset IPos) (loc0 : IPos) :
    ∀ (fuel : Nat) (cur : IPos) (d : Option DirC) (m : IPos),
      m ∈ chariotGo b opp loc0 fuel cur d → m ≠ loc0 := by
  intro fuel
  induction fuel with
  | zero => intro cur d m h; exact absurd h (List.not_mem_nil m)
  | succ fuel ih =>
    intro cur d m h
    simp only [chariotGo] at h
    split_ifs at h with hA hB hC hD hE hF
    · exact absurd h (List.not_mem_nil m)
    · exact absurd h (List.not_mem_nil m)
    · have he := List.mem_singleton.mp h
      subst he
      exact Ne.symm hD.1
    · rcases List.mem_cons.mp h with he | h
      · subst he
        exact Ne.symm hE.1
      · exact ih _ _ _ h
    · simp only [List.mem_append] at h
      rcases h with (((h | h) | h) | h) | (((h | h) | h) | h) <;> exact ih _ _ _ h
    · simp only [List.nil_append, List.mem_append] at h
      rcases h with ((h | h) | h) | h <;> exact ih _ _ _ h
    · exact absurd h (List.not_mem_nil m)

theorem chariotMoves_ne_self (b : MGBoard) (opp : Finset IPos) (loc0 : IPos) :
    loc0 ∉ chariotMoves b opp loc0 :=
  fun h => chariotGo_ne_self b opp loc0 64 loc0 none loc0 h rfl

/-! ### The cannon's rays advance monotonically in one direction -/

theorem advO_some (d : DirO) (p : IPos) :
    advO (some d) p = ((p.1 + (vecO d).1, p.2 + (vecO d).2), d) := by
  cases d <;> simp [advO, vecO, sub_eq_add_neg]

theorem advO_none (p : IPos) : advO none p = ((p.1, p.2 - 1), DirO.oEM) := rfl

theorem redCornerOpp_ne (p q : IPos) (h : redCornerOpp p = some q) : q ≠ p := by
  unfold redCornerOpp at h
  split_ifs at h with a1 a2 a3 a4 <;>
    first
    | (injection h with h; subst h; subst ‹p = _›; decide)
    | exact Option.noConfusion h

theorem blueCornerOpp_ne (p q : IPos) (h : blueCornerOpp p = some q) : q ≠ p := by
  unfold blueCornerOpp at h
  split_ifs at h with a1 a2 a3 a4 <;>
    first
    | (injection h with h; subst h; subst ‹p = _›; decide)
    | exact Option.noConfusion h

theorem cannonDiagonals_ne_self (b : MGBoard) (loc0 m : IPos)
    (h : m ∈ cannonDiagonals b loc0) : m ≠ loc0 := by
  unfold cannonDiagonals at h
  rcases List.mem_append.mp h with h | h
  · rcases hq : redCornerOpp loc0 with _ | q
    · rw [hq] at h; exact absurd h (List.not_mem_nil m)
    · rw [hq] at h
      split_ifs at h
      · have he := List.mem_singleton.mp h
        subst he
        exact redCornerOpp_ne loc0 m hq
      · exact absurd h (List.not_mem_nil m)
  · rcases hq : blueCornerOpp loc0 with _ | q
    · rw [hq] at h; exact absurd h (List.not_mem_nil m)
    · rw [hq] at h
      split_ifs at h
      · have he := List.mem_singleton.mp h
        subst he
        exact blueCornerOpp_ne loc0 m hq
      · exact absurd h (List.not_mem_nil m)

/-- Along a ray in direction `d` that starts strictly away from the cannon's
own location, every produced destination stays on that ray, strictly away
from the cannon's own location. -/
theorem cannonGo_ray (b : MGBoard) (opp : Finset IPos) (loc0 : IPos) (d : DirO) :
    ∀ (fuel count : Nat) (cur : IPos) (k0 : Int), 1 ≤ k0 →
      cur.1 = loc0.1 + k0 * (vecO d).1 → cur.2 = loc0.2 + k0 * (vecO d).2 →
      ∀ m ∈ cannonGo b opp loc0 fuel count cur (some d),
        ∃ k : Int, k0 ≤ k ∧ m.1 = loc0.1 + k * (vecO d).1 ∧ m.2 = loc0.2 + k * (vecO d).2 := by
  intro fuel
  induction fuel with
  | zero => intro count cur k0 _ _ _ m h; exact absurd h (List.not_mem_nil m)
  | succ fuel ih =>
    intro count cur k0 hk0 hc1 hc2 m h
    simp only [cannonGo] at h
    rw [advO_some] at h
    dsimp only at h
    split_ifs at h with hA hB hC hD hE hF hG
    · exact absurd h (List.not_mem_nil m)
    · exact absurd h (List.not_mem_nil m)
    · have he := List.mem_singleton.mp h
      subst he
      exact ⟨k0, le_rfl, hc1, hc2⟩
    · rcases List.mem_cons.mp h with he | h
      · subst he
        exact ⟨k0, le_rfl, hc1, hc2⟩
      · obtain ⟨k, hk, e1, e2⟩ :=
          ih count (cur.1 + (vecO d).1, cur.2 + (vecO d).2) (k0 + 1) (by omega)
            (by dsimp only; rw [hc1]; ring) (by dsimp only; rw [hc2]; ring) m h
        exact ⟨k, by omega, e1, e2⟩
    · obtain ⟨k, hk, e1, e2⟩ :=
        ih count (cur.1 + (vecO d).1, cur.2 + (vecO d).2) (k0 + 1) (by omega)
          (by dsimp only; rw [hc1]; ring) (by dsimp only; rw [hc2]; ring) m h
      exact ⟨k, by omega, e1, e2⟩
    · obtain ⟨k, hk, e1, e2⟩ :=
        ih (count + 1) (cur.1 + (vecO d).1, cur.2 + (vecO d).2) (k0 + 1) (by omega)
          (by dsimp only; rw [hc1]; ring) (by dsimp only; rw [hc2]; ring) m h
      exact ⟨k, by omega, e1, e2⟩
    · have hlc : loc0 = cur := by
        by_contra hne
        exact hB ⟨hne, Option.isSome_iff_ne_none.mpr hF, hG⟩
      rw [← hlc] at hc1 hc2
      cases d <;> (dsimp only [vecO] at hc1 hc2; omega)
    · exact absurd h (List.not_mem_nil m)

/-- The entry call of `Cannon.get_legal_moves` never returns the cannon's own
cell. -/
theorem cannonGoEntry_ne_self (b : MGBoard) (opp : Finset IPos) (loc0 : IPos) (fuel : Nat)
    (m : IPos) (h : m ∈ cannonGo b opp loc0 (Nat.succ fuel) 0 loc0 none) : m ≠ loc0 := by
  simp only [cannonGo] at h
  simp only [advO_none] at h
  split_ifs at h with hA hB hC hD hE hF hG
  · exact absurd h (List.not_mem_nil m)
  · exact absurd hC (by decide)
  · exact hD.1.elim
  · exact hE.1.elim
  · obtain ⟨k, hk, e1, e2⟩ :=
      cannonGo_ray b opp loc0 DirO.oEM fuel 0 (loc0.1, loc0.2 - 1) 1 le_rfl
        (by dsimp only [vecO]; ring) (by dsimp only [vecO]; ring) m h
    intro heq
    rw [heq] at e1 e2
    dsimp only [vecO] at e1 e2
    omega
  · obtain ⟨k, hk, e1, e2⟩ :=
      cannonGo_ray b opp loc0 DirO.oEM fuel (0 + 1) (loc0.1, loc0.2 - 1) 1 le_rfl
        (by dsimp only [vecO]; ring) (by dsimp only [vecO]; ring) m h
    intro heq
    rw [heq] at e1 e2
    dsimp only [vecO] at e1 e2
    omega
  · rcases List.mem_append.mp h with h | h
    · exact cannonDiagonals_ne_self b loc0 m h
    · simp only [List.mem_append] at h
      intro heq
      rcases h with ((h | h) | h) | h
      · obtain ⟨k, hk, e1, e2⟩ :=
          cannonGo_ray b opp loc0 DirO.oPE fuel 0 (loc0.1 + 1, loc0.2) 1 le_rfl
            (by dsimp only [vecO]; ring) (by dsimp only [vecO]; ring) m h
        rw [heq] at e1 e2; dsimp only [vecO] at e1 e2; omega
      · obtain ⟨k, hk, e1, e2⟩ :=
          cannonGo_ray b opp loc0 DirO.oME fuel 0 (loc0.1 - 1, loc0.2) 1 le_rfl
            (by dsimp only [vecO]; ring) (by dsimp only [vecO]; ring) m h
        rw [heq] at e1 e2; dsimp only [vecO] at e1 e2; omega
      · obtain ⟨k, hk, e1, e2⟩ :=
          cannonGo_ray b opp loc0 DirO.oEP fuel 0 (loc0.1, loc0.2 + 1) 1 le_rfl
            (by dsimp only [vecO]; ring) (by dsimp only [vecO]; ring) m h
        rw [heq] at e1 e2; dsimp only [vecO] at e1 e2; omega
      · obtain ⟨k, hk, e1, e2⟩ :=
          cannonGo_ray b opp loc0 DirO.oEM fuel 0 (loc0.1, loc0.2 - 1) 1 le_rfl
            (by dsimp only [vecO]; ring) (by dsimp only [vecO]; ring) m h
        rw [heq] at e1 e2; dsimp only [vecO] at e1 e2; omega
  · exact absurd h (List.not_mem_nil m)

theorem cannonMoves_ne_self (b : MGBoard) (opp : Finset IPos) (loc0 : IPos) :
    loc0 ∉ cannonMoves b opp loc0 :=
  fun h => cannonGoEntry_ne_self b opp loc0 63 loc0 h rfl

/-- No piece kind ever lists its own current cell as a destination. -/
theorem pieceMoves_ne_self (o : Owner) (t : PType) (b : MGBoard) (opp : Finset IPos)
    (loc0 : IPos) : loc0 ∉ pieceMoves o t b opp loc0 := by
  cases t <;> cases o <;>
    first
    | exact redGeneralMoves_ne_self b opp loc0
    | exact blueGeneralMoves_ne_self b opp loc0
    | exact horseMoves_ne_self b opp loc0
    | exact elephantMoves_ne_self b opp loc0
    | exact chariotMoves_ne_self b opp loc0
    | exact cannonMoves_ne_self b opp loc0
    | exact redSoldierMoves_ne_self b opp loc0
    | exact blueSoldierMoves_ne_self b opp loc0

theorem changeTurn_board (s : GameSt) : (changeTurn s).board = s.board := rfl

theorem changeTurn_state (s : GameSt) : (changeTurn s).state = s.state := rfl

theorem changeTurn_turn (s : GameSt) : (changeTurn s).turn = oppositeOwner s.turn := by
  rcases s with ⟨b, l, bp, rp, t, st⟩
  cases t <;> rfl

/-- Claim C6: with the game unfinished and the origin held by the piece `pid`
of the player to move (with the piece's recorded location agreeing with the
origin cell, as the program maintains), a `make_move` call whose origin equals
its destination succeeds and advances the turn exactly when that player is not
in check, fails leaving the state untouched when the player is in check, and
in both cases the board is unmutated. -/
theorem claim_C6 :
    ∀ (s : GameSt) (z : String) (fp : IPos) (pid : Nat),
    parseCoord z = some fp → s.state = GState.UNFINISHED →
    s.board fp = some pid → pieceOwner pid = s.turn → s.loc pid = some fp →
    (isInCheck s (pieceOwner pid) = false →
       makeMove s z z = some (true, changeTurn s) ∧
       (changeTurn s).board = s.board ∧ (changeTurn s).turn = oppositeOwner s.turn) ∧
    (isInCheck s (pieceOwner pid) = true → makeMove s z z = some (false, s)) := by
  intro s z fp pid hz hst hb ho hl
  constructor
  · intro hchk
    rw [ho] at hchk
    refine ⟨?_, rfl, changeTurn_turn s⟩
    unfold makeMove
    rw [hz]
    simp [hst, hb, ho, hchk]
  · intro hchk
    have hnm : fp ∉ movesOfPiece s (pieceOwner pid) pid := by
      unfold movesOfPiece
      rw [hl]
      exact pieceMoves_ne_self (pieceOwner pid) (pieceType pid) (mgBoard s)
        (oppositionPositions s (pieceOwner pid)) fp
    rw [ho] at hchk hnm
    unfold makeMove
    rw [hz]
    simp [hst, hb, ho, hchk, hnm]

/-- Claim C6, witness: the blue General passes its turn from the initial
position (`e9 → e9`). -/
theorem claim_C6_witness :
    parseCoord "e9" = some (8, 4) ∧ initialState.state = GState.UNFINISHED ∧
    initialState.board (8, 4) = some 0 ∧ pieceOwner 0 = initialState.turn ∧
    initialState.loc 0 = some (8, 4) ∧ isInCheck initialState (pieceOwner 0) = false ∧
    makeMove initialState "e9" "e9" = some (true, changeTurn initialState) :=
  ⟨rfl, rfl, rfl, rfl, rfl, by decide,
   ((claim_C6 initialState "e9" (8, 4) 0 rfl rfl rfl rfl rfl).1 (by decide)).1⟩

/-! ### Claim C7: the check test -/

theorem foldl_generalPos_const (s : GameSt) (gp : IPos) :
    ∀ (l : List Nat), (∀ pid ∈ l, pieceType pid = PType.General → s.loc pid = some gp) →
    l.foldl (fun acc pid => if pieceType pid = PType.General then s.loc pid else acc)
      (some gp) = some gp := by
  intro l
  induction l with
  | nil => intro _; rfl
  | cons x xs ih =>
    intro hall
    dsimp only [List.foldl]
    by_cases hx : pieceType x = PType.General
    · rw [if_pos hx, hall x (List.mem_cons_self x xs) hx]
      exact ih fun p hp ht => hall p (List.mem_cons_of_mem x hp) ht
    · rw [if_neg hx]
      exact ih fun p hp ht => hall p (List.mem_cons_of_mem x hp) ht

theorem foldl_generalPos_eq (s : GameSt) (gp : IPos) :
    ∀ (l : List Nat) (a : Option IPos),
    (∀ pid ∈ l, pieceType pid = PType.General → s.loc pid = some gp) →
    (∃ pid ∈ l, pieceType pid = PType.General) →
    l.foldl (fun acc pid => if pieceType pid = PType.General then s.loc pid else acc) a
      = some gp := by
  intro l
  induction l with
  | nil =>
    rintro a _ ⟨pid, hmem, _⟩
    exact absurd hmem (List.not_mem_nil pid)
  | cons x xs ih =>
    rintro a hall hex
    dsimp only [List.foldl]
    by_cases hx : pieceType x = PType.General
    · rw [if_pos hx, hall x (List.mem_cons_self x xs) hx]
      exact foldl_generalPos_const s gp xs fun p hp ht => hall p (List.mem_cons_of_mem x hp) ht
    · rw [if_neg hx]
      obtain ⟨pid, hmem, htype⟩ := hex
      rcases List.mem_cons.mp hmem with rfl | hmem
      · exact absurd htype hx
      · exact ih a (fun p hp ht => hall p (List.mem_cons_of_mem x hp) ht) ⟨pid, hmem, htype⟩

theorem foldl_append_mem {α β : Type _} (f : α → List β) (m : β) :
    ∀ (l : List α) (a : List β),
    m ∈ l.foldl (fun acc x => acc ++ f x) a ↔ m ∈ a ∨ ∃ x ∈ l, m ∈ f x := by
  intro l
  induction l with
  | nil => intro a; simp
  | cons x xs ih =>
    intro a
    dsimp only [List.foldl]
    rw [ih]
    constructor
    · rintro (h | ⟨y, hy, hm⟩)
      · rcases List.mem_append.mp h with h | h
        · exact Or.inl h
        · exact Or.inr ⟨x, List.mem_cons_self x xs, h⟩
      · exact Or.inr ⟨y, List.mem_cons_of_mem x hy, hm⟩
    · rintro (h | ⟨y, hy, hm⟩)
      · exact Or.inl (List.mem_append.mpr (Or.inl h))
      · rcases List.mem_cons.mp hy with rfl | hy
        · exact Or.inl (List.mem_append.mpr (Or.inr hm))
        · exact Or.inr ⟨y, hy, hm⟩

/-- Claim C7: `is_in_check(S)` returns `True` exactly when S's General's
current position is a member of the union of the legal moves of every piece
owned by S's opponent (given S's positions as the opposition set).  The
hypotheses say the general's position is well defined: some General with
location `gp` sits in S's collection and every General in that collection has
location `gp` — in reachable states the collection holds exactly one General. -/
theorem claim_C7 :
    ∀ (s : GameSt) (player : Owner) (gid : Nat) (gp : IPos),
    gid ∈ sideList s player → pieceType gid = PType.General → s.loc gid = some gp →
    (∀ pid ∈ sideList s player, pieceType pid = PType.General → s.loc pid = some gp) →
    (isInCheck s player = true ↔ gp ∈ specCheckUnion s player) := by
  intro s player gid gp hmem htype hloc hall
  have hgen : generalPos s player = some gp :=
    foldl_generalPos_eq s gp (sideList s player) none hall ⟨gid, hmem, htype⟩
  unfold isInCheck
  rw [hgen]
  simp only [decide_eq_true_eq]
  unfold attackedCells specCheckUnion
  rw [foldl_append_mem]
  simp [List.mem_flatMap]

/-- Claim C7, witness: the theorem applied to blue in the initial position. -/
theorem claim_C7_witness :
    (0 ∈ sideList initialState Owner.blue ∧ pieceType 0 = PType.General ∧
     initialState.loc 0 = some (8, 4) ∧
     (∀ pid ∈ sideList initialState Owner.blue,
        pieceType pid = PType.General → initialState.loc pid = some (8, 4))) ∧
    (isInCheck initialState Owner.blue = true ↔
       ((8, 4) : IPos) ∈ specCheckUnion initialState Owner.blue) :=
  ⟨⟨by decide, rfl, rfl, by decide⟩,
   claim_C7 initialState Owner.blue 0 (8, 4) (by decide) rfl rfl (by decide)⟩

/-! ### Claim C9: the opening scenario -/

/-- Claim C9, counterexample to the claim as a literal five-call sequence:
after `c1→e3` (False), `a7→b7` (True) and `a4→a5` (True), the call `b3→b6`
returns False, but then `a4→a4` also returns False — cell a4 is empty (the red
soldier moved to a5) and it is blue's turn — whereas the claim asserts it
returns True and passes red's turn. -/
theorem claim_C9_counterexample :
    (makeMove initialState "c1" "e3").map (·.1) = some false ∧
    (makeMove bare1 "a7" "b7").map (·.1) = some true ∧
    (makeMove bare2 "a4" "a5").map (·.1) = some true ∧
    (makeMove bare3 "b3" "b6").map (·.1) = some false ∧
    (makeMove bare4 "a4" "a4").map (·.1) = some false ∧
    bare4.board (3, 0) = none ∧ bare4.turn = Owner.blue := by
  refine ⟨by decide, by decide, by decide, by decide, by decide, by decide, by decide⟩

/-- Claim C9 (amended): the scenario holds as the source's own demo plays it,
with the intermediate scripted moves `b7→b6`, `a1→a4`, `c7→d7` between the
spec's listed calls: from the fixed initial layout, `c1→e3` on blue's turn
fails (wrong turn); `a7→b7` succeeds; `a4→a5` succeeds on red's subsequent
turn; `b3→b6` fails; and after `b7→b6`, `a1→a4`, `c7→d7`, the call `a4→a4`
on red's turn (red not in check) succeeds, passes the turn to blue, and
leaves the board grid unchanged. -/
theorem claim_C9 :
    initialState.turn = Owner.blue ∧
    (makeMove initialState "c1" "e3").map (·.1) = some false ∧
    (makeMove initialState "a7" "b7").map (·.1) = some true ∧
    sc1.turn = Owner.red ∧
    (makeMove sc1 "a4" "a5").map (·.1) = some true ∧
    (makeMove sc2 "b7" "b6").map (·.1) = some true ∧
    (makeMove sc3 "b3" "b6").map (·.1) = some false ∧
    (makeMove sc3 "a1" "a4").map (·.1) = some true ∧
    (makeMove sc4 "c7" "d7").map (·.1) = some true ∧
    sc5.turn = Owner.red ∧
    makeMove sc5 "a4" "a4" = some (true, changeTurn sc5) ∧
    (changeTurn sc5).board = sc5.board ∧
    (changeTurn sc5).turn = Owner.blue := by
  refine ⟨rfl, by decide, by decide, by decide, by decide, by decide, by decide, by decide,
    by decide, by decide, ?_, rfl, by decide⟩
  rfl

/-! ### Claim C1: simulate-and-revert restoration -/

theorem erase_append_perm {α : Type _} [DecidableEq α] {l : List α} {a : α} (h : a ∈ l) :
    (l.erase a ++ [a]).Perm l :=
  (List.perm_append_singleton a (l.erase a)).trans (List.perm_cons_erase h).symm

/-- What `leaves_in_check` restores, and what it does not: under the coherence
facts the program maintains at every call site (the moved piece records the
origin cell, a captured piece records the target cell, is a different object,
and sits in its owner's collection), the call restores the board, every
piece's recorded location, the turn and the status exactly, restores the two
collections up to permutation, and is the identity when no piece stands on the
target cell.  When a piece is captured and restored, the untouched side's
collection is returned unchanged, while the captured piece is re-appended at
the end of its own side's collection. -/
theorem leavesInCheck_restores (s : GameSt) (f t : IPos) (pid : Nat)
    (hft : f ≠ t) (hbf : s.board f = some pid) (hlf : s.loc pid = some f)
    (hcap : ∀ oid, s.board t = some oid →
      s.loc oid = some t ∧ oid ≠ pid ∧
      (oid ∈ s.redPieces ↔ pieceOwner oid = Owner.red) ∧
      (pieceOwner oid = Owner.blue → oid ∈ s.bluePieces)) :
    (leavesInCheck s f t).2.board = s.board ∧
    (leavesInCheck s f t).2.loc = s.loc ∧
    (leavesInCheck s f t).2.turn = s.turn ∧
    (leavesInCheck s f t).2.state = s.state ∧
    (leavesInCheck s f t).2.bluePieces.Perm s.bluePieces ∧
    (leavesInCheck s f t).2.redPieces.Perm s.redPieces ∧
    (∀ oid, s.board t = some oid → pieceOwner oid = Owner.blue →
       (leavesInCheck s f t).2.redPieces = s.redPieces) ∧
    (∀ oid, s.board t = some oid → pieceOwner oid = Owner.red →
       (leavesInCheck s f t).2.bluePieces = s.bluePieces) ∧
    (s.board t = none → (leavesInCheck s f t).2 = s) := by
  have hb1t : updB s.board f none t = s.board t := by
    unfold updB
    rw [if_neg fun hq => hft hq.symm]
  cases hcase : s.board t with
  | none =>
    have hBrd : updB (updB (updB (updB s.board f none) t (some pid)) f (some pid)) t none
        = s.board := by
      funext q
      unfold updB
      by_cases h1 : q = t
      · subst h1; simp [hcase]
      · by_cases h2 : q = f
        · subst h2; simp [h1, hbf]
        · simp [h1, h2]
    have hLoc : updL (updL s.loc pid (some t)) pid (some f) = s.loc := by
      funext q
      unfold updL
      by_cases h1 : q = pid
      · subst h1; simp [hlf]
      · simp [h1]
    have hred : leavesInCheck s f t
        = ((leavesInCheck s f t).1,
           ⟨updB (updB (updB (updB s.board f none) t (some pid)) f (some pid)) t none,
            updL (updL s.loc pid (some t)) pid (some f),
            s.bluePieces, s.redPieces, s.turn, s.state⟩) := by
      unfold leavesInCheck
      rw [hbf]
      simp only [hb1t, hcase]
    rw [hred]
    refine ⟨hBrd, hLoc, rfl, rfl, List.Perm.refl _, List.Perm.refl _, ?_, ?_, ?_⟩
    · intro oid hoid; exact Option.noConfusion hoid
    · intro oid hoid; exact Option.noConfusion hoid
    · intro _
      show (⟨_, _, s.bluePieces, s.redPieces, s.turn, s.state⟩ : GameSt) = s
      rw [hBrd, hLoc]
  | some oid =>
    obtain ⟨hlo, hne, hredIff, hblue⟩ := hcap oid hcase
    have hBrd : updB (updB (updB (updB (updB s.board f none) t none) t (some pid)) f
        (some pid)) t (some oid) = s.board := by
      funext q
      unfold updB
      by_cases h1 : q = t
      · subst h1; simp [hcase]
      · by_cases h2 : q = f
        · subst h2; simp [h1, hbf]
        · simp [h1, h2]
    have hLoc : updL (updL (updL (updL s.loc oid none) pid (some t)) pid (some f)) oid
        (some t) = s.loc := by
      funext q
      unfold updL
      by_cases h1 : q = oid
      · subst h1; simp [hlo]
      · by_cases h2 : q = pid
        · subst h2; simp [h1, hlf]
        · simp [h1, h2]
    have hred : leavesInCheck s f t
        = ((leavesInCheck s f t).1,
           ⟨updB (updB (updB (updB (updB s.board f none) t none) t (some pid)) f
              (some pid)) t (some oid),
            updL (updL (updL (updL s.loc oid none) pid (some t)) pid (some f)) oid (some t),
            (if pieceOwner oid = Owner.blue
             then (if oid ∈ s.redPieces then s.bluePieces else s.bluePieces.erase oid) ++ [oid]
             else (if oid ∈ s.redPieces then s.bluePieces else s.bluePieces.erase oid)),
            (if pieceOwner oid = Owner.blue
             then (if oid ∈ s.redPieces then s.redPieces.erase oid else s.redPieces)
             else (if oid ∈ s.redPieces then s.redPieces.erase oid else s.redPieces) ++ [oid]),
            s.turn, s.state⟩) := by
      unfold leavesInCheck
      rw [hbf]
      simp only [hb1t, hcase]
    rw [hred]
    cases howner : pieceOwner oid with
    | blue =>
      have hnr : oid ∉ s.redPieces := fun hmem => by
        rw [hredIff.mp hmem] at howner
        cases howner
      have hnb : oid ∈ s.bluePieces := hblue howner
      refine ⟨hBrd, hLoc, rfl, rfl, ?_, ?_, ?_, ?_, ?_⟩
      · simp only [howner, if_true, if_neg hnr]
        exact erase_append_perm hnb
      · simp only [howner, if_true, if_neg hnr]
        exact List.Perm.refl _
      · intro oid' hoid' _
        injection hoid' with hoid'
        subst hoid'
        simp [howner, hnr]
      · intro oid' hoid' hro
        injection hoid' with hoid'
        subst hoid'
        rw [howner] at hro
        cases hro
      · intro hnone; exact Option.noConfusion hnone
    | red =>
      have hr : oid ∈ s.redPieces := hredIff.mpr howner
      refine ⟨hBrd, hLoc, rfl, rfl, ?_, ?_, ?_, ?_, ?_⟩
      · simp only [howner, if_pos hr]
        exact List.Perm.refl _
      · simp only [howner, if_pos hr]
        exact erase_append_perm hr
      · intro oid' hoid' hbo
        injection hoid' with hoid'
        subst hoid'
        rw [howner] at hbo
        cases hbo
      · intro oid' hoid' _
        injection hoid' with hoid'
        subst hoid'
        simp [howner, hr]
      · intro hnone; exact Option.noConfusion hnone

/-- Claim C1 (amended): a `leaves_in_check` call restores the board grid, every
piece's recorded position, the turn and the game state exactly, and restores
the two piece collections up to permutation — membership is preserved, but
when the simulated move captures, the captured piece is re-appended at the end
of its collection, so insertion order is preserved only in the capture-free
case (where the call is a strict no-op).  Likewise every `make_move` call that
returns `False` leaves the board, locations, turn and state identical and the
collections equal up to permutation.  The hypotheses are the coherence facts
the program maintains at every call site; the capture-coherence ones are only
assumed for a genuine two-square move (`fp ≠ tp`), so every rejection branch
is covered, including a pass attempt on an occupied origin (on such a call
`leaves_in_check` is never reached: no piece kind lists its own cell). -/
theorem claim_C1 :
    (∀ (s : GameSt) (f t : IPos) (pid : Nat),
       f ≠ t → s.board f = some pid → s.loc pid = some f →
       (∀ oid, s.board t = some oid →
          s.loc oid = some t ∧ oid ≠ pid ∧
          (oid ∈ s.redPieces ↔ pieceOwner oid = Owner.red) ∧
          (pieceOwner oid = Owner.blue → oid ∈ s.bluePieces)) →
       (leavesInCheck s f t).2.board = s.board ∧
       (leavesInCheck s f t).2.loc = s.loc ∧
       (leavesInCheck s f t).2.turn = s.turn ∧
       (leavesInCheck s f t).2.state = s.state ∧
       (leavesInCheck s f t).2.bluePieces.Perm s.bluePieces ∧
       (leavesInCheck s f t).2.redPieces.Perm s.redPieces ∧
       (s.board t = none → (leavesInCheck s f t).2 = s)) ∧
    (∀ (s : GameSt) (mf mt : String) (fp tp : IPos),
       parseCoord mf = some fp → parseCoord mt = some tp →
       (∀ pid, s.board fp = some pid → s.loc pid = some fp) →
       (fp ≠ tp → ∀ oid, s.board tp = some oid →
          s.loc oid = some tp ∧ (∀ pid, s.board fp = some pid → oid ≠ pid) ∧
          (oid ∈ s.redPieces ↔ pieceOwner oid = Owner.red) ∧
          (pieceOwner oid = Owner.blue → oid ∈ s.bluePieces)) →
       ∀ s', makeMove s mf mt = some (false, s') →
         s'.board = s.board ∧ s'.loc = s.loc ∧ s'.turn = s.turn ∧ s'.state = s.state ∧
         s'.bluePieces.Perm s.bluePieces ∧ s'.redPieces.Perm s.redPieces) := by
  constructor
  · intro s f t pid hft hbf hlf hcap
    obtain ⟨h1, h2, h3, h4, h5, h6, _, _, h9⟩ :=
      leavesInCheck_restores s f t pid hft hbf hlf hcap
    exact ⟨h1, h2, h3, h4, h5, h6, h9⟩
  · intro s mf mt fp tp hmf hmt hcohF hcohT s' hEq
    unfold makeMove at hEq
    rw [hmt, hmf] at hEq
    dsimp only at hEq
    by_cases hstate : s.state ≠ GState.UNFINISHED
    · rw [if_pos hstate] at hEq
      have hs := congrArg Prod.snd (Option.some.inj hEq)
      dsimp only at hs
      subst hs
      exact ⟨rfl, rfl, rfl, rfl, List.Perm.refl _, List.Perm.refl _⟩
    · rw [if_neg hstate] at hEq
      rcases hbfp : s.board fp with _ | pid
      · rw [hbfp] at hEq
        dsimp only at hEq
        have hs := congrArg Prod.snd (Option.some.inj hEq)
        dsimp only at hs
        subst hs
        exact ⟨rfl, rfl, rfl, rfl, List.Perm.refl _, List.Perm.refl _⟩
      · rw [hbfp] at hEq
        dsimp only at hEq
        by_cases howner : pieceOwner pid ≠ s.turn
        · rw [if_pos howner] at hEq
          have hs := congrArg Prod.snd (Option.some.inj hEq)
          dsimp only at hs
          subst hs
          exact ⟨rfl, rfl, rfl, rfl, List.Perm.refl _, List.Perm.refl _⟩
        · rw [if_neg howner] at hEq
          by_cases hpass : mf = mt ∧ ¬ isInCheck s (pieceOwner pid)
          · rw [if_pos hpass] at hEq
            simp at hEq
          · rw [if_neg hpass] at hEq
            by_cases hleg : tp ∉ movesOfPiece s (pieceOwner pid) pid
            · rw [if_pos hleg] at hEq
              have hs := congrArg Prod.snd (Option.some.inj hEq)
              dsimp only at hs
              subst hs
              exact ⟨rfl, rfl, rfl, rfl, List.Perm.refl _, List.Perm.refl _⟩
            · rw [if_neg hleg] at hEq
              have hmem : tp ∈ movesOfPiece s (pieceOwner pid) pid := not_not.mp hleg
              have hlocp := hcohF pid hbfp
              have hft : fp ≠ tp := by
                intro heq
                rw [← heq] at hmem
                unfold movesOfPiece at hmem
                rw [hlocp] at hmem
                exact pieceMoves_ne_self _ _ _ _ fp hmem
              by_cases hlic : (leavesInCheck s fp tp).1 = true
              · rw [if_pos hlic] at hEq
                have hs := congrArg Prod.snd (Option.some.inj hEq)
                dsimp only at hs
                have hcap' : ∀ oid, s.board tp = some oid →
                    s.loc oid = some tp ∧ oid ≠ pid ∧
                    (oid ∈ s.redPieces ↔ pieceOwner oid = Owner.red) ∧
                    (pieceOwner oid = Owner.blue → oid ∈ s.bluePieces) := by
                  intro oid ho
                  obtain ⟨a, bq, c, d⟩ := hcohT hft oid ho
                  exact ⟨a, bq pid hbfp, c, d⟩
                obtain ⟨h1, h2, h3, h4, h5, h6, _, _, _⟩ :=
                  leavesInCheck_restores s fp tp pid hft hbfp hlocp hcap'
                subst hs
                exact ⟨h1, h2, h3, h4, h5, h6⟩
              · rw [if_neg hlic] at hEq
                split_ifs at hEq <;> simp at hEq

/-- Claim C1, counterexample to the claim as stated: simulating the capture
`(5, 0) → (4, 0)` removes the red soldier (listed first) and re-appends it at
the end, so the red collection's insertion order differs after the call,
though its membership is intact. -/
theorem claim_C1_counterexample :
    (leavesInCheck c1State (5, 0) (4, 0)).2.redPieces = [16, 27] ∧
    c1State.redPieces = [27, 16] ∧
    (leavesInCheck c1State (5, 0) (4, 0)).2.redPieces ≠ c1State.redPieces := by decide

/-- Claim C1, witness: the amended theorem applied to the same capturing
simulation. -/
theorem claim_C1_witness :
    ((5, 0) : IPos) ≠ ((4, 0) : IPos) ∧ c1State.board (5, 0) = some 11 ∧
    (leavesInCheck c1State (5, 0) (4, 0)).2.board = c1State.board ∧
    (leavesInCheck c1State (5, 0) (4, 0)).2.loc = c1State.loc ∧
    (leavesInCheck c1State (5, 0) (4, 0)).2.bluePieces.Perm c1State.bluePieces ∧
    (leavesInCheck c1State (5, 0) (4, 0)).2.redPieces.Perm c1State.redPieces := by
  have hcap : ∀ oid, c1State.board (4, 0) = some oid →
      c1State.loc oid = some (4, 0) ∧ oid ≠ 11 ∧
      (oid ∈ c1State.redPieces ↔ pieceOwner oid = Owner.red) ∧
      (pieceOwner oid = Owner.blue → oid ∈ c1State.bluePieces) := by
    intro oid h
    rw [show c1State.board (4, 0) = some 27 from rfl] at h
    injection h with h
    subst h
    exact ⟨rfl, by decide, by decide, by decide⟩
  have r := claim_C1.1 c1State (5, 0) (4, 0) 11 (by decide) rfl rfl hcap
  exact ⟨by decide, rfl, r.1, r.2.1, r.2.2.2.2.1, r.2.2.2.2.2.1⟩

theorem MateRel.rfl {pl : Owner} {s2 : GameSt} : MateRel pl s2 s2 :=
  ⟨Eq.refl _, Eq.refl _, Eq.refl _, Eq.refl _, Eq.refl _, List.Perm.refl _⟩

theorem MateRel.sideMem {pl : Owner} {s2 sA : GameSt} (h : MateRel pl s2 sA)
    (pl' : Owner) (x : Nat) : x ∈ sideList sA pl' ↔ x ∈ sideList s2 pl' := by
  obtain ⟨-, -, -, -, h5, h6⟩ := h
  cases pl <;> cases pl' <;> first | (rw [h5]) | (exact h6.mem_iff)

theorem MateRel.redMem {pl : Owner} {s2 sA : GameSt} (h : MateRel pl s2 sA) (x : Nat) :
    x ∈ sA.redPieces ↔ x ∈ s2.redPieces := h.sideMem Owner.red x

theorem MateRel.blueMem {pl : Owner} {s2 sA : GameSt} (h : MateRel pl s2 sA) (x : Nat) :
    x ∈ sA.bluePieces ↔ x ∈ s2.bluePieces := h.sideMem Owner.blue x

theorem MateRel.oppPos {pl : Owner} {s2 sA : GameSt} (h : MateRel pl s2 sA) (pl' : Owner) :
    oppositionPositions sA pl' = oppositionPositions s2 pl' := by
  obtain ⟨-, hl, -, -, h5, h6⟩ := h
  unfold oppositionPositions
  rw [hl]
  cases pl <;> cases pl' <;> simp only [oppositeOwner] at h5 h6 ⊢ <;>
    first
    | (rw [h5])
    | (exact List.toFinset_eq_of_perm _ _ (h6.filterMap s2.loc))

theorem MateRel.movesOf {pl : Owner} {s2 sA : GameSt} (h : MateRel pl s2 sA)
    (pl' : Owner) (pid : Nat) : movesOfPiece sA pl' pid = movesOfPiece s2 pl' pid := by
  unfold movesOfPiece mgBoard
  rw [h.2.1, h.1, h.oppPos pl']

theorem MateRel.genPos {pl : Owner} {s2 sA : GameSt} (h : MateRel pl s2 sA) :
    generalPos sA pl = generalPos s2 pl := by
  unfold generalPos
  rw [h.2.2.2.2.1, h.2.1]

theorem MateRel.attackedIff {pl : Owner} {s2 sA : GameSt} (h : MateRel pl s2 sA) (p : IPos) :
    p ∈ attackedCells sA pl ↔ p ∈ attackedCells s2 pl := by
  unfold attackedCells
  rw [foldl_append_mem, foldl_append_mem]
  simp only [List.not_mem_nil, false_or]
  constructor
  · rintro ⟨x, hx, hm⟩
    exact ⟨x, (h.sideMem (oppositeOwner pl) x).mp hx, h.movesOf (oppositeOwner pl) x ▸ hm⟩
  · rintro ⟨x, hx, hm⟩
    exact ⟨x, (h.sideMem (oppositeOwner pl) x).mpr hx, (h.movesOf (oppositeOwner pl) x).symm ▸ hm⟩

theorem MateRel.check {pl : Owner} {s2 sA : GameSt} (h : MateRel pl s2 sA) :
    isInCheck sA pl = isInCheck s2 pl := by
  unfold isInCheck
  rw [h.genPos]
  cases generalPos s2 pl with
  | none => rfl
  | some p => exact decide_eq_decide.mpr (h.attackedIff p)

theorem leavesInCheck_run_turn_state (s : GameSt) (f t : IPos) :
    (leavesInCheck s f t).2.turn = s.turn ∧ (leavesInCheck s f t).2.state = s.state := by
  unfold leavesInCheck
  cases s.board f with
  | none => exact ⟨rfl, rfl⟩
  | some pid =>
    dsimp only
    cases updB s.board f none t with
    | none => exact ⟨rfl, rfl⟩
    | some oid => exact ⟨rfl, rfl⟩

theorem updateBoard_turn_state (s : GameSt) (f t : IPos) :
    (updateBoard s f t).turn = s.turn ∧ (updateBoard s f t).state = s.state := by
  unfold updateBoard
  cases s.board f with
  | none => exact ⟨rfl, rfl⟩
  | some pid =>
    dsimp only
    cases updB s.board f none t with
    | none => exact ⟨rfl, rfl⟩
    | some oid => exact ⟨rfl, rfl⟩

theorem leavesInCheck_bool_matrel (pl : Owner) (s2 sA : GameSt) (h : MateRel pl s2 sA)
    (f m : IPos) (hown : ∀ pid, s2.board f = some pid → pieceOwner pid = pl) :
    (leavesInCheck sA f m).1 = (leavesInCheck s2 f m).1 := by
  have hb := h.1
  have hl := h.2.1
  have ht := h.2.2.1
  have hs := h.2.2.2.1
  have h5 := h.2.2.2.2.1
  have h6 := h.2.2.2.2.2
  unfold leavesInCheck
  rw [hb, hl]
  cases hbf : s2.board f with
  | none => rfl
  | some pid =>
    dsimp only
    cases hbt : updB s2.board f none m with
    | none =>
      dsimp only
      rw [hown pid hbf]
      refine @MateRel.check pl _ _ ⟨rfl, rfl, ht, hs, ?_, ?_⟩
      · cases pl
        · exact h5
        · exact h5
      · cases pl
        · exact h6
        · exact h6
    | some oid =>
      dsimp only
      rw [hown pid hbf]
      by_cases hmem : oid ∈ s2.redPieces
      · simp only [if_pos hmem, if_pos ((h.redMem oid).mpr hmem)]
        refine @MateRel.check pl _ _ ⟨rfl, rfl, ht, hs, ?_, ?_⟩
        · cases pl
          · show sA.redPieces.erase oid = s2.redPieces.erase oid
            rw [show sA.redPieces = s2.redPieces from h5]
          · show sA.bluePieces = s2.bluePieces
            exact h5
        · cases pl
          · show sA.bluePieces.Perm s2.bluePieces
            exact h6
          · show (sA.redPieces.erase oid).Perm (s2.redPieces.erase oid)
            exact (show sA.redPieces.Perm s2.redPieces from h6).erase oid
      · simp only [if_neg hmem, if_neg (fun hx => hmem ((h.redMem oid).mp hx))]
        refine @MateRel.check pl _ _ ⟨rfl, rfl, ht, hs, ?_, ?_⟩
        · cases pl
          · show sA.redPieces = s2.redPieces
            exact h5
          · show sA.bluePieces.erase oid = s2.bluePieces.erase oid
            rw [show sA.bluePieces = s2.bluePieces from h5]
        · cases pl
          · show (sA.bluePieces.erase oid).Perm (s2.bluePieces.erase oid)
            exact (show sA.bluePieces.Perm s2.bluePieces from h6).erase oid
          · show sA.redPieces.Perm s2.redPieces
            exact h6

theorem leavesInCheck_matestep (pl : Owner) (s2 sA : GameSt) (h : MateRel pl s2 sA)
    (f m : IPos) (pid : Nat)
    (hft : f ≠ m) (hbf : s2.board f = some pid) (hlf : s2.loc pid = some f)
    (hcap : ∀ oid, s2.board m = some oid →
      s2.loc oid = some m ∧ oid ≠ pid ∧
      (oid ∈ s2.redPieces ↔ pieceOwner oid = Owner.red) ∧
      (pieceOwner oid = Owner.blue → oid ∈ s2.bluePieces) ∧
      pieceOwner oid ≠ pl) :
    MateRel pl s2 (leavesInCheck sA f m).2 := by
  have hbfA : sA.board f = some pid := by rw [h.1]; exact hbf
  have hlfA : sA.loc pid = some f := by rw [h.2.1]; exact hlf
  have hcapA : ∀ oid, sA.board m = some oid →
      sA.loc oid = some m ∧ oid ≠ pid ∧
      (oid ∈ sA.redPieces ↔ pieceOwner oid = Owner.red) ∧
      (pieceOwner oid = Owner.blue → oid ∈ sA.bluePieces) := by
    intro oid ho
    rw [h.1] at ho
    obtain ⟨a, b2, c, d, -⟩ := hcap oid ho
    refine ⟨by rw [h.2.1]; exact a, b2, (h.redMem oid).trans c, fun hob => (h.blueMem oid).mpr (d hob)⟩
  obtain ⟨r1, r2, r3, r4, r5, r6, r7, r8, r9⟩ :=
    leavesInCheck_restores sA f m pid hft hbfA hlfA hcapA
  refine ⟨r1.trans h.1, r2.trans h.2.1, r3.trans h.2.2.1, r4.trans h.2.2.2.1, ?_, ?_⟩
  · cases hbm : s2.board m with
    | none =>
      have he : (leavesInCheck sA f m).2 = sA := r9 (by rw [h.1]; exact hbm)
      rw [he]
      exact h.2.2.2.2.1
    | some oid =>
      obtain ⟨-, -, -, -, hne⟩ := hcap oid hbm
      cases plc : pl with
      | red =>
        rw [plc] at hne
        have hob : pieceOwner oid = Owner.blue := by
          cases howner : pieceOwner oid
          · exact absurd howner hne
          · rfl
        have hr := r7 oid (by rw [h.1]; exact hbm) hob
        have h5 := h.2.2.2.2.1
        rw [plc] at h5
        show (leavesInCheck sA f m).2.redPieces = s2.redPieces
        rw [hr]
        exact h5
      | blue =>
        rw [plc] at hne
        have hor : pieceOwner oid = Owner.red := by
          cases howner : pieceOwner oid
          · rfl
          · exact absurd howner hne
        have hr := r8 oid (by rw [h.1]; exact hbm) hor
        have h5 := h.2.2.2.2.1
        rw [plc] at h5
        show (leavesInCheck sA f m).2.bluePieces = s2.bluePieces
        rw [hr]
        exact h5
  · cases plc : pl with
    | red =>
      have h6 := h.2.2.2.2.2
      rw [plc] at h6
      show (leavesInCheck sA f m).2.bluePieces.Perm s2.bluePieces
      exact r5.trans h6
    | blue =>
      have h6 := h.2.2.2.2.2
      rw [plc] at h6
      show (leavesInCheck sA f m).2.redPieces.Perm s2.redPieces
      exact r6.trans h6

theorem mateInner_props (pl : Owner) (s2 : GameSt) (pid : Nat) (f : IPos)
    (hbf : s2.board f = some pid) (hlf : s2.loc pid = some f) (hop : pieceOwner pid = pl) :
    ∀ (ms : List IPos) (sA : GameSt), MateRel pl s2 sA →
    (∀ m ∈ ms, f ≠ m ∧ ∀ oid, s2.board m = some oid →
        s2.loc oid = some m ∧ oid ≠ pid ∧
        (oid ∈ s2.redPieces ↔ pieceOwner oid = Owner.red) ∧
        (pieceOwner oid = Owner.blue → oid ∈ s2.bluePieces) ∧
        pieceOwner oid ≠ pl) →
    MateRel pl s2 (mateInner pid ms sA).2 ∧
    ((mateInner pid ms sA).1 = true ↔ ∃ m ∈ ms, (leavesInCheck s2 f m).1 = false) := by
  intro ms
  induction ms with
  | nil =>
    intro sA hA _
    refine ⟨hA, ?_⟩
    simp [mateInner]
  | cons m ms ih =>
    intro sA hA hcaps
    have hlfA : sA.loc pid = some f := by rw [hA.2.1]; exact hlf
    have hown : ∀ q, s2.board f = some q → pieceOwner q = pl := by
      intro q hq
      rw [hbf] at hq
      injection hq with hq
      rw [← hq]
      exact hop
    obtain ⟨hfm, hcapm⟩ := hcaps m (List.mem_cons_self m ms)
    have hbool : (leavesInCheck sA f m).1 = (leavesInCheck s2 f m).1 :=
      leavesInCheck_bool_matrel pl s2 sA hA f m hown
    have hstep : MateRel pl s2 (leavesInCheck sA f m).2 :=
      leavesInCheck_matestep pl s2 sA hA f m pid hfm hbf hlf hcapm
    unfold mateInner
    rw [hlfA]
    dsimp only
    cases hc : (leavesInCheck s2 f m).1 with
    | true =>
      rw [hbool, hc, if_pos rfl]
      obtain ⟨ihA, ihB⟩ :=
        ih (leavesInCheck sA f m).2 hstep (fun x hx => hcaps x (List.mem_cons_of_mem m hx))
      refine ⟨ihA, ihB.trans ?_⟩
      constructor
      · rintro ⟨x, hx, hb2⟩
        exact ⟨x, List.mem_cons_of_mem m hx, hb2⟩
      · rintro ⟨x, hx, hb2⟩
        rcases List.mem_cons.mp hx with hx | hx
        · rw [hx, hc] at hb2
          exact Bool.noConfusion hb2
        · exact ⟨x, hx, hb2⟩
    | false =>
      rw [hbool, hc, if_neg (by decide)]
      refine ⟨hstep, ?_⟩
      constructor
      · intro _
        exact ⟨m, List.mem_cons_self m ms, hc⟩
      · intro _
        rfl

theorem mateOuter_props (pl : Owner) (s2 : GameSt) (hmh : MateHyps s2 pl) :
    ∀ (fuel i : Nat) (sA : GameSt), MateRel pl s2 sA →
    (sideList s2 pl).length - i < fuel →
    MateRel pl s2 (mateOuter pl fuel i sA).2 ∧
    ((mateOuter pl fuel i sA).1 = true ↔
      ∀ j (hj : j < (sideList s2 pl).length), i ≤ j →
        ∀ g, s2.loc ((sideList s2 pl).get ⟨j, hj⟩) = some g →
          ∀ m ∈ movesOfPiece s2 pl ((sideList s2 pl).get ⟨j, hj⟩),
            (leavesInCheck s2 g m).1 = true) := by
  intro fuel
  induction fuel with
  | zero =>
    intro i sA hA hfu
    exact absurd hfu (by omega)
  | succ fuel ih =>
    intro i sA hA hfu
    have hlist : sideList sA pl = sideList s2 pl := hA.2.2.2.2.1
    unfold mateOuter
    dsimp only
    rw [hlist]
    by_cases hi : i < (sideList s2 pl).length
    · rw [dif_pos hi]
      rw [hA.movesOf pl ((sideList s2 pl).get ⟨i, hi⟩)]
      have hmem : (sideList s2 pl).get ⟨i, hi⟩ ∈ sideList s2 pl := List.get_mem _ _ _
      obtain ⟨f, hlf, hbf, hop, hmoves⟩ := hmh _ hmem
      obtain ⟨hin1, hin2⟩ :=
        mateInner_props pl s2 _ f hbf hlf hop
          (movesOfPiece s2 pl ((sideList s2 pl).get ⟨i, hi⟩)) sA hA hmoves
      cases hb : (mateInner ((sideList s2 pl).get ⟨i, hi⟩)
          (movesOfPiece s2 pl ((sideList s2 pl).get ⟨i, hi⟩)) sA).1 with
      | true =>
        rw [if_pos rfl]
        refine ⟨hin1, ?_⟩
        constructor
        · intro hfalse
          exact Bool.noConfusion hfalse
        · intro hall
          obtain ⟨m, hmm, hesc⟩ := hin2.mp hb
          have hq := hall i hi (Nat.le_refl i) f hlf m hmm
          rw [hq] at hesc
          exact Bool.noConfusion hesc
      | false =>
        rw [if_neg (by decide)]
        obtain ⟨ih1, ih2⟩ :=
          ih (i + 1)
            (mateInner ((sideList s2 pl).get ⟨i, hi⟩)
              (movesOfPiece s2 pl ((sideList s2 pl).get ⟨i, hi⟩)) sA).2
            hin1 (by omega)
        refine ⟨ih1, ih2.trans ?_⟩
        constructor
        · intro hge j hj hij g hg m hmm
          rcases Nat.lt_or_ge j (i + 1) with hlt | hge2
          · have hji : j = i := by omega
            subst hji
            have hgf : g = f := by
              rw [hlf] at hg
              injection hg with hg
              exact hg.symm
            subst hgf
            cases hlic2 : (leavesInCheck s2 g m).1 with
            | true => rfl
            | false =>
              have hcon := hin2.mpr ⟨m, hmm, hlic2⟩
              rw [hb] at hcon
              exact Bool.noConfusion hcon
          · exact hge j hj hge2 g hg m hmm
        · intro hall j hj hij g hg m hmm
          exact hall j hj (by omega) g hg m hmm
    · rw [dif_neg hi]
      refine ⟨hA, ?_⟩
      constructor
      · intro _ j hj hij g hg m hmm
        exact absurd hij (by omega)
      · intro _
        rfl

theorem isCheckMate_iff (pl : Owner) (s2 : GameSt) (hmh : MateHyps s2 pl) :
    MateRel pl s2 (isCheckMate s2 pl).2 ∧
    ((isCheckMate s2 pl).1 = true ↔ specMate s2 pl) := by
  obtain ⟨h1, h2⟩ :=
    mateOuter_props pl s2 hmh ((sideList s2 pl).length + 1) 0 s2 MateRel.rfl (by omega)
  refine ⟨h1, h2.trans ?_⟩
  constructor
  · intro hall pid hpid g hg m hmm
    obtain ⟨⟨j, hj⟩, hget⟩ := List.mem_iff_get.mp hpid
    rw [← hget] at hg hmm
    exact hall j hj (Nat.zero_le j) g hg m hmm
  · intro hsm j hj hij g hg m hmm
    exact hsm _ (List.get_mem _ _ _) g hg m hmm

theorem c2MateHyps : MateHyps c2Commit (oppositeOwner c2State.turn) := by
  intro pid hpid
  have hlist : sideList c2Commit (oppositeOwner c2State.turn) = [16] := by decide
  rw [hlist] at hpid
  have hpid16 := List.mem_singleton.mp hpid
  subst hpid16
  refine ⟨(0, 3), by decide, by decide, by decide, ?_⟩
  intro m hm
  have hmoves : movesOfPiece c2Commit (oppositeOwner c2State.turn) 16
      = [(1, 4), (1, 3), (0, 4)] := by decide
  rw [hmoves] at hm
  rcases List.mem_cons.mp hm with h1 | hm
  · subst h1
    refine ⟨by decide, ?_⟩
    intro oid ho
    exact Option.noConfusion ho
  rcases List.mem_cons.mp hm with h1 | hm
  · subst h1
    refine ⟨by decide, ?_⟩
    intro oid ho
    exact Option.noConfusion ho
  rcases List.mem_cons.mp hm with h1 | hm
  · subst h1
    refine ⟨by decide, ?_⟩
    intro oid ho
    exact Option.noConfusion ho
  · exact absurd hm (List.not_mem_nil m)

/-- The conditional half of the C2 analysis: *when every occupied legal
destination of the opponent holds an enemy piece* (`MateHyps`), the commit
tail of `make_move` does set the mover's win with the turn not advanced
exactly when the opponent stands in check and no simulated piece/destination
combination escapes it, and otherwise stays UNFINISHED and advances the turn.
The unguarded diagonal destinations of C5 violate this hypothesis in ordinary
positions, and there the equivalence genuinely fails — see `claim_C2`. -/
theorem makeMoveCommitCases (s : GameSt) (mf mt : String) (fp tp : IPos) (pid : Nat)
    (hpt : parseCoord mt = some tp) (hpf : parseCoord mf = some fp)
    (hst : s.state = GState.UNFINISHED)
    (hbf : s.board fp = some pid)
    (hop : pieceOwner pid = s.turn)
    (hne : mf ≠ mt)
    (hmv : tp ∈ movesOfPiece s (pieceOwner pid) pid)
    (hlic : (leavesInCheck s fp tp).1 = false)
    (hmh : MateHyps (updateBoard (leavesInCheck s fp tp).2 fp tp) (oppositeOwner s.turn)) :
    ∃ s', makeMove s mf mt = some (true, s') ∧
      ((isInCheck (updateBoard (leavesInCheck s fp tp).2 fp tp) (oppositeOwner s.turn) = true ∧
          specMate (updateBoard (leavesInCheck s fp tp).2 fp tp) (oppositeOwner s.turn)) →
        s'.state = (if s.turn = Owner.blue then GState.BLUE_WON else GState.RED_WON) ∧
        s'.turn = s.turn) ∧
      (¬ (isInCheck (updateBoard (leavesInCheck s fp tp).2 fp tp) (oppositeOwner s.turn) = true ∧
          specMate (updateBoard (leavesInCheck s fp tp).2 fp tp) (oppositeOwner s.turn)) →
        s'.state = GState.UNFINISHED ∧ s'.turn = oppositeOwner s.turn) := by
  have hs2t : (updateBoard (leavesInCheck s fp tp).2 fp tp).turn = s.turn := by
    rw [(updateBoard_turn_state _ fp tp).1, (leavesInCheck_run_turn_state s fp tp).1]
  have hs2s : (updateBoard (leavesInCheck s fp tp).2 fp tp).state = GState.UNFINISHED := by
    rw [(updateBoard_turn_state _ fp tp).2, (leavesInCheck_run_turn_state s fp tp).2, hst]
  unfold makeMove
  rw [hpt, hpf]
  dsimp only
  rw [if_neg (fun hx => hx hst)]
  rw [hbf]
  dsimp only
  rw [if_neg (fun hx => hx hop)]
  rw [if_neg (fun hx => hne hx.1)]
  rw [if_neg (fun hx => hx hmv)]
  rw [hlic, if_neg (by decide)]
  rw [hs2t]
  obtain ⟨hmrel, hmiff⟩ :=
    isCheckMate_iff (oppositeOwner s.turn) (updateBoard (leavesInCheck s fp tp).2 fp tp) hmh
  by_cases hchk :
      isInCheck (updateBoard (leavesInCheck s fp tp).2 fp tp) (oppositeOwner s.turn) = true
  · rw [if_pos hchk]
    by_cases hsm : specMate (updateBoard (leavesInCheck s fp tp).2 fp tp) (oppositeOwner s.turn)
    · have hm1 :
          (isCheckMate (updateBoard (leavesInCheck s fp tp).2 fp tp) (oppositeOwner s.turn)).1
            = true := hmiff.mpr hsm
      rw [hm1, if_pos rfl]
      refine ⟨_, rfl, ?_, ?_⟩
      · intro _
        constructor
        · show (if pieceOwner pid = Owner.blue then GState.BLUE_WON else GState.RED_WON) = _
          rw [hop]
        · show (isCheckMate (updateBoard (leavesInCheck s fp tp).2 fp tp)
              (oppositeOwner s.turn)).2.turn = s.turn
          rw [hmrel.2.2.1, hs2t]
      · intro hcon
        exact absurd ⟨hchk, hsm⟩ hcon
    · have hm0 :
          (isCheckMate (updateBoard (leavesInCheck s fp tp).2 fp tp) (oppositeOwner s.turn)).1
            = false := by
        cases hbm :
            (isCheckMate (updateBoard (leavesInCheck s fp tp).2 fp tp) (oppositeOwner s.turn)).1
        · rfl
        · exact absurd (hmiff.mp hbm) hsm
      rw [hm0, if_neg (by decide)]
      refine ⟨_, rfl, ?_, ?_⟩
      · intro hcon
        exact absurd hcon.2 hsm
      · intro _
        constructor
        · rw [changeTurn_state, hmrel.2.2.2.1, hs2s]
        · rw [changeTurn_turn, hmrel.2.2.1, hs2t]
  · rw [if_neg hchk]
    refine ⟨_, rfl, ?_, ?_⟩
    · intro hcon
      exact absurd hcon.1 hchk
    · intro _
      exact ⟨by rw [changeTurn_state, hs2s], by rw [changeTurn_turn, hs2t]⟩

theorem makeMoveCommitCases_inst :
    ∃ s', makeMove c2State "i6" "i2" = some (true, s') ∧
      ((isInCheck c2Commit (oppositeOwner c2State.turn) = true ∧
          specMate c2Commit (oppositeOwner c2State.turn)) →
        s'.state = (if c2State.turn = Owner.blue then GState.BLUE_WON else GState.RED_WON) ∧
        s'.turn = c2State.turn) ∧
      (¬ (isInCheck c2Commit (oppositeOwner c2State.turn) = true ∧
          specMate c2Commit (oppositeOwner c2State.turn)) →
        s'.state = GState.UNFINISHED ∧ s'.turn = oppositeOwner c2State.turn) :=
  makeMoveCommitCases c2State "i6" "i2" (5, 8) (1, 8) 9
    (by decide) (by decide) rfl (by decide) (by decide) (by decide) (by decide) (by decide)
    c2MateHyps

/-- C2: refuted on the program.  In the ordinary position `c2BugPre`, blue's
committing move `i6 → i2` is answered with the mover's win and the turn not
advanced, *although* a simulated piece/destination combination of red escapes
check: red's chariot (piece 20, on (5,6)) can block on (0,6) and the
simulate-and-revert primitive reports no check for it.  The cause: probing the
(7,3) soldier simulates the capture of the friendly soldier on its unguarded
diagonal destination (8,4) (the C5 bug), and `leaves_in_check`'s
remove-then-append restore permutes the very list `is_check_mate` is
iterating by index — the chariot slides into an already-visited slot and is
never probed, as the returned red collection `[28, 20, 16, 27]` shows. -/
theorem claim_C2 :
    (makeMove c2BugPre "i6" "i2").map (fun r => (r.1, r.2.state, r.2.turn))
      = some (true, GState.BLUE_WON, Owner.blue) ∧
    isInCheck c2BugCommit Owner.red = true ∧
    20 ∈ sideList c2BugCommit Owner.red ∧
    c2BugCommit.loc 20 = some (5, 6) ∧
    ((0, 6) : IPos) ∈ movesOfPiece c2BugCommit Owner.red 20 ∧
    (leavesInCheck c2BugCommit (5, 6) (0, 6)).1 = false ∧
    (isCheckMate c2BugCommit Owner.red).1 = true ∧
    (isCheckMate c2BugCommit Owner.red).2.redPieces = [28, 20, 16, 27] ∧
    c2BugCommit.redPieces = [27, 28, 20, 16] := by
  refine ⟨by decide, by decide, by decide, by decide, by decide, by decide, by decide,
    by decide, by decide⟩
